import Mathlib

/-!
paddle: pipeline definition model, overrides, name sanitizer, key filter

A shallow embedding of `cli/pipeline/pipeline_definition.go` and
`cli/pipeline/template.go`, with the properties of the override operations,
of the bucket default of `parsePipeline`, of `sanitizeName` and of
`NewPodDefinition`, of the text that `compile` renders and of the two shell
scripts in it, and of the key filter used by `cli/data`.

Go strings are embedded as lists of characters (`GoString`): the text the YAML
decoder hands to the program, which is valid UTF-8.  `sanitizeName`, the one
function that reads its argument as UTF-8, is given on arbitrary byte strings
as well (`sanitizeNameBytes`).  A Go method with a pointer receiver that
mutates its receiver is embedded as a function returning the new value.
-/

namespace Paddle

/-- A Go `string`, as the sequence of its characters. -/
abbrev GoString := List Char

/-! ## The Go `unicode` tables behind `strings.ToLower`

`strings.ToLower` lowers every rune with `unicode.ToLower`, which is the
simple lower-case mapping of the Unicode Character Database: for an ASCII
rune the letters `A`..`Z`, for any other rune the case table of the Go
library.  The table is not part of the repository; it is given here for
Unicode 14.0, as ranges of runes with the image of the first one. -/

/-- A range of the case table: the runes `lo`, `lo + stride`, ... up to `hi`,
each mapped to the rune at the same distance from `target`. -/
structure CaseRange where
  lo : Nat
  hi : Nat
  stride : Nat
  target : Nat
  deriving DecidableEq, Repr

/-- Whether the rune `n` is one of the runes of the range. -/
def CaseRange.covers (r : CaseRange) (n : Nat) : Bool :=
  decide (r.lo ≤ n) && decide (n ≤ r.hi) && decide ((n - r.lo) % r.stride = 0)

/-- The runes above ASCII that have a lower-case form other than themselves. -/
def lowerRanges : List CaseRange := [
  CaseRange.mk 0x00C0 0x00D6 1 0x00E0, CaseRange.mk 0x00D8 0x00DE 1 0x00F8, CaseRange.mk 0x0100 0x012E 2 0x0101,
  CaseRange.mk 0x0130 0x0130 1 0x0069, CaseRange.mk 0x0132 0x0136 2 0x0133, CaseRange.mk 0x0139 0x0147 2 0x013A,
  CaseRange.mk 0x014A 0x0176 2 0x014B, CaseRange.mk 0x0178 0x0178 1 0x00FF, CaseRange.mk 0x0179 0x017D 2 0x017A,
  CaseRange.mk 0x0181 0x0181 1 0x0253, CaseRange.mk 0x0182 0x0184 2 0x0183, CaseRange.mk 0x0186 0x0186 1 0x0254,
  CaseRange.mk 0x0187 0x0187 1 0x0188, CaseRange.mk 0x0189 0x018A 1 0x0256, CaseRange.mk 0x018B 0x018B 1 0x018C,
  CaseRange.mk 0x018E 0x018E 1 0x01DD, CaseRange.mk 0x018F 0x018F 1 0x0259, CaseRange.mk 0x0190 0x0190 1 0x025B,
  CaseRange.mk 0x0191 0x0191 1 0x0192, CaseRange.mk 0x0193 0x0193 1 0x0260, CaseRange.mk 0x0194 0x0194 1 0x0263,
  CaseRange.mk 0x0196 0x0196 1 0x0269, CaseRange.mk 0x0197 0x0197 1 0x0268, CaseRange.mk 0x0198 0x0198 1 0x0199,
  CaseRange.mk 0x019C 0x019C 1 0x026F, CaseRange.mk 0x019D 0x019D 1 0x0272, CaseRange.mk 0x019F 0x019F 1 0x0275,
  CaseRange.mk 0x01A0 0x01A4 2 0x01A1, CaseRange.mk 0x01A6 0x01A6 1 0x0280, CaseRange.mk 0x01A7 0x01A7 1 0x01A8,
  CaseRange.mk 0x01A9 0x01A9 1 0x0283, CaseRange.mk 0x01AC 0x01AC 1 0x01AD, CaseRange.mk 0x01AE 0x01AE 1 0x0288,
  CaseRange.mk 0x01AF 0x01AF 1 0x01B0, CaseRange.mk 0x01B1 0x01B2 1 0x028A, CaseRange.mk 0x01B3 0x01B5 2 0x01B4,
  CaseRange.mk 0x01B7 0x01B7 1 0x0292, CaseRange.mk 0x01B8 0x01B8 1 0x01B9, CaseRange.mk 0x01BC 0x01BC 1 0x01BD,
  CaseRange.mk 0x01C4 0x01C4 1 0x01C6, CaseRange.mk 0x01C5 0x01C5 1 0x01C6, CaseRange.mk 0x01C7 0x01C7 1 0x01C9,
  CaseRange.mk 0x01C8 0x01C8 1 0x01C9, CaseRange.mk 0x01CA 0x01CA 1 0x01CC, CaseRange.mk 0x01CB 0x01DB 2 0x01CC,
  CaseRange.mk 0x01DE 0x01EE 2 0x01DF, CaseRange.mk 0x01F1 0x01F1 1 0x01F3, CaseRange.mk 0x01F2 0x01F4 2 0x01F3,
  CaseRange.mk 0x01F6 0x01F6 1 0x0195, CaseRange.mk 0x01F7 0x01F7 1 0x01BF, CaseRange.mk 0x01F8 0x021E 2 0x01F9,
  CaseRange.mk 0x0220 0x0220 1 0x019E, CaseRange.mk 0x0222 0x0232 2 0x0223, CaseRange.mk 0x023A 0x023A 1 0x2C65,
  CaseRange.mk 0x023B 0x023B 1 0x023C, CaseRange.mk 0x023D 0x023D 1 0x019A, CaseRange.mk 0x023E 0x023E 1 0x2C66,
  CaseRange.mk 0x0241 0x0241 1 0x0242, CaseRange.mk 0x0243 0x0243 1 0x0180, CaseRange.mk 0x0244 0x0244 1 0x0289,
  CaseRange.mk 0x0245 0x0245 1 0x028C, CaseRange.mk 0x0246 0x024E 2 0x0247, CaseRange.mk 0x0370 0x0372 2 0x0371,
  CaseRange.mk 0x0376 0x0376 1 0x0377, CaseRange.mk 0x037F 0x037F 1 0x03F3, CaseRange.mk 0x0386 0x0386 1 0x03AC,
  CaseRange.mk 0x0388 0x038A 1 0x03AD, CaseRange.mk 0x038C 0x038C 1 0x03CC, CaseRange.mk 0x038E 0x038F 1 0x03CD,
  CaseRange.mk 0x0391 0x03A1 1 0x03B1, CaseRange.mk 0x03A3 0x03AB 1 0x03C3, CaseRange.mk 0x03CF 0x03CF 1 0x03D7,
  CaseRange.mk 0x03D8 0x03EE 2 0x03D9, CaseRange.mk 0x03F4 0x03F4 1 0x03B8, CaseRange.mk 0x03F7 0x03F7 1 0x03F8,
  CaseRange.mk 0x03F9 0x03F9 1 0x03F2, CaseRange.mk 0x03FA 0x03FA 1 0x03FB, CaseRange.mk 0x03FD 0x03FF 1 0x037B,
  CaseRange.mk 0x0400 0x040F 1 0x0450, CaseRange.mk 0x0410 0x042F 1 0x0430, CaseRange.mk 0x0460 0x0480 2 0x0461,
  CaseRange.mk 0x048A 0x04BE 2 0x048B, CaseRange.mk 0x04C0 0x04C0 1 0x04CF, CaseRange.mk 0x04C1 0x04CD 2 0x04C2,
  CaseRange.mk 0x04D0 0x052E 2 0x04D1, CaseRange.mk 0x0531 0x0556 1 0x0561, CaseRange.mk 0x10A0 0x10C5 1 0x2D00,
  CaseRange.mk 0x10C7 0x10C7 1 0x2D27, CaseRange.mk 0x10CD 0x10CD 1 0x2D2D, CaseRange.mk 0x13A0 0x13EF 1 0xAB70,
  CaseRange.mk 0x13F0 0x13F5 1 0x13F8, CaseRange.mk 0x1C90 0x1CBA 1 0x10D0, CaseRange.mk 0x1CBD 0x1CBF 1 0x10FD,
  CaseRange.mk 0x1E00 0x1E94 2 0x1E01, CaseRange.mk 0x1E9E 0x1E9E 1 0x00DF, CaseRange.mk 0x1EA0 0x1EFE 2 0x1EA1,
  CaseRange.mk 0x1F08 0x1F0F 1 0x1F00, CaseRange.mk 0x1F18 0x1F1D 1 0x1F10, CaseRange.mk 0x1F28 0x1F2F 1 0x1F20,
  CaseRange.mk 0x1F38 0x1F3F 1 0x1F30, CaseRange.mk 0x1F48 0x1F4D 1 0x1F40, CaseRange.mk 0x1F59 0x1F5F 2 0x1F51,
  CaseRange.mk 0x1F68 0x1F6F 1 0x1F60, CaseRange.mk 0x1F88 0x1F8F 1 0x1F80, CaseRange.mk 0x1F98 0x1F9F 1 0x1F90,
  CaseRange.mk 0x1FA8 0x1FAF 1 0x1FA0, CaseRange.mk 0x1FB8 0x1FB9 1 0x1FB0, CaseRange.mk 0x1FBA 0x1FBB 1 0x1F70,
  CaseRange.mk 0x1FBC 0x1FBC 1 0x1FB3, CaseRange.mk 0x1FC8 0x1FCB 1 0x1F72, CaseRange.mk 0x1FCC 0x1FCC 1 0x1FC3,
  CaseRange.mk 0x1FD8 0x1FD9 1 0x1FD0, CaseRange.mk 0x1FDA 0x1FDB 1 0x1F76, CaseRange.mk 0x1FE8 0x1FE9 1 0x1FE0,
  CaseRange.mk 0x1FEA 0x1FEB 1 0x1F7A, CaseRange.mk 0x1FEC 0x1FEC 1 0x1FE5, CaseRange.mk 0x1FF8 0x1FF9 1 0x1F78,
  CaseRange.mk 0x1FFA 0x1FFB 1 0x1F7C, CaseRange.mk 0x1FFC 0x1FFC 1 0x1FF3, CaseRange.mk 0x2126 0x2126 1 0x03C9,
  CaseRange.mk 0x212A 0x212A 1 0x006B, CaseRange.mk 0x212B 0x212B 1 0x00E5, CaseRange.mk 0x2132 0x2132 1 0x214E,
  CaseRange.mk 0x2160 0x216F 1 0x2170, CaseRange.mk 0x2183 0x2183 1 0x2184, CaseRange.mk 0x24B6 0x24CF 1 0x24D0,
  CaseRange.mk 0x2C00 0x2C2F 1 0x2C30, CaseRange.mk 0x2C60 0x2C60 1 0x2C61, CaseRange.mk 0x2C62 0x2C62 1 0x026B,
  CaseRange.mk 0x2C63 0x2C63 1 0x1D7D, CaseRange.mk 0x2C64 0x2C64 1 0x027D, CaseRange.mk 0x2C67 0x2C6B 2 0x2C68,
  CaseRange.mk 0x2C6D 0x2C6D 1 0x0251, CaseRange.mk 0x2C6E 0x2C6E 1 0x0271, CaseRange.mk 0x2C6F 0x2C6F 1 0x0250,
  CaseRange.mk 0x2C70 0x2C70 1 0x0252, CaseRange.mk 0x2C72 0x2C72 1 0x2C73, CaseRange.mk 0x2C75 0x2C75 1 0x2C76,
  CaseRange.mk 0x2C7E 0x2C7F 1 0x023F, CaseRange.mk 0x2C80 0x2CE2 2 0x2C81, CaseRange.mk 0x2CEB 0x2CED 2 0x2CEC,
  CaseRange.mk 0x2CF2 0x2CF2 1 0x2CF3, CaseRange.mk 0xA640 0xA66C 2 0xA641, CaseRange.mk 0xA680 0xA69A 2 0xA681,
  CaseRange.mk 0xA722 0xA72E 2 0xA723, CaseRange.mk 0xA732 0xA76E 2 0xA733, CaseRange.mk 0xA779 0xA77B 2 0xA77A,
  CaseRange.mk 0xA77D 0xA77D 1 0x1D79, CaseRange.mk 0xA77E 0xA786 2 0xA77F, CaseRange.mk 0xA78B 0xA78B 1 0xA78C,
  CaseRange.mk 0xA78D 0xA78D 1 0x0265, CaseRange.mk 0xA790 0xA792 2 0xA791, CaseRange.mk 0xA796 0xA7A8 2 0xA797,
  CaseRange.mk 0xA7AA 0xA7AA 1 0x0266, CaseRange.mk 0xA7AB 0xA7AB 1 0x025C, CaseRange.mk 0xA7AC 0xA7AC 1 0x0261,
  CaseRange.mk 0xA7AD 0xA7AD 1 0x026C, CaseRange.mk 0xA7AE 0xA7AE 1 0x026A, CaseRange.mk 0xA7B0 0xA7B0 1 0x029E,
  CaseRange.mk 0xA7B1 0xA7B1 1 0x0287, CaseRange.mk 0xA7B2 0xA7B2 1 0x029D, CaseRange.mk 0xA7B3 0xA7B3 1 0xAB53,
  CaseRange.mk 0xA7B4 0xA7C2 2 0xA7B5, CaseRange.mk 0xA7C4 0xA7C4 1 0xA794, CaseRange.mk 0xA7C5 0xA7C5 1 0x0282,
  CaseRange.mk 0xA7C6 0xA7C6 1 0x1D8E, CaseRange.mk 0xA7C7 0xA7C9 2 0xA7C8, CaseRange.mk 0xA7D0 0xA7D0 1 0xA7D1,
  CaseRange.mk 0xA7D6 0xA7D8 2 0xA7D7, CaseRange.mk 0xA7F5 0xA7F5 1 0xA7F6, CaseRange.mk 0xFF21 0xFF3A 1 0xFF41,
  CaseRange.mk 0x10400 0x10427 1 0x10428, CaseRange.mk 0x104B0 0x104D3 1 0x104D8, CaseRange.mk 0x10570 0x1057A 1 0x10597,
  CaseRange.mk 0x1057C 0x1058A 1 0x105A3, CaseRange.mk 0x1058C 0x10592 1 0x105B3, CaseRange.mk 0x10594 0x10595 1 0x105BB,
  CaseRange.mk 0x10C80 0x10CB2 1 0x10CC0, CaseRange.mk 0x118A0 0x118BF 1 0x118C0, CaseRange.mk 0x16E40 0x16E5F 1 0x16E60,
  CaseRange.mk 0x1E900 0x1E921 1 0x1E922 ]

/-- The lower-case form of a rune above ASCII, by the table. -/
def toLowerTable (n : Nat) : Nat :=
  match lowerRanges.find? (fun r => r.covers n) with
  | some r => r.target + (n - r.lo)
  | none => n

/-- `unicode.ToLower(r)`: for an ASCII rune the ASCII rule, else the table. -/
def unicodeToLower (c : Char) : Char :=
  if c.toNat ≤ 0x7F then c.toLower else Char.ofNat (toLowerTable c.toNat)

/-- The upper-case letters (general category `Lu`), as ranges `(lo, hi, stride)`. -/
def upperRanges : List (Nat × Nat × Nat) := [
  (0x0041, 0x005A, 1), (0x00C0, 0x00D6, 1), (0x00D8, 0x00DE, 1), (0x0100, 0x0136, 2),
  (0x0139, 0x0147, 2), (0x014A, 0x0178, 2), (0x0179, 0x017D, 2), (0x0181, 0x0182, 1),
  (0x0184, 0x0186, 2), (0x0187, 0x0189, 2), (0x018A, 0x018B, 1), (0x018E, 0x0191, 1),
  (0x0193, 0x0194, 1), (0x0196, 0x0198, 1), (0x019C, 0x019D, 1), (0x019F, 0x01A0, 1),
  (0x01A2, 0x01A6, 2), (0x01A7, 0x01A9, 2), (0x01AC, 0x01AE, 2), (0x01AF, 0x01B1, 2),
  (0x01B2, 0x01B3, 1), (0x01B5, 0x01B7, 2), (0x01B8, 0x01B8, 1), (0x01BC, 0x01BC, 1),
  (0x01C4, 0x01C4, 1), (0x01C7, 0x01C7, 1), (0x01CA, 0x01CA, 1), (0x01CD, 0x01DB, 2),
  (0x01DE, 0x01EE, 2), (0x01F1, 0x01F1, 1), (0x01F4, 0x01F6, 2), (0x01F7, 0x01F8, 1),
  (0x01FA, 0x0232, 2), (0x023A, 0x023B, 1), (0x023D, 0x023E, 1), (0x0241, 0x0243, 2),
  (0x0244, 0x0246, 1), (0x0248, 0x024E, 2), (0x0370, 0x0372, 2), (0x0376, 0x0376, 1),
  (0x037F, 0x037F, 1), (0x0386, 0x0388, 2), (0x0389, 0x038A, 1), (0x038C, 0x038E, 2),
  (0x038F, 0x0391, 2), (0x0392, 0x03A1, 1), (0x03A3, 0x03AB, 1), (0x03CF, 0x03CF, 1),
  (0x03D2, 0x03D4, 1), (0x03D8, 0x03EE, 2), (0x03F4, 0x03F4, 1), (0x03F7, 0x03F9, 2),
  (0x03FA, 0x03FA, 1), (0x03FD, 0x042F, 1), (0x0460, 0x0480, 2), (0x048A, 0x04C0, 2),
  (0x04C1, 0x04CD, 2), (0x04D0, 0x052E, 2), (0x0531, 0x0556, 1), (0x10A0, 0x10C5, 1),
  (0x10C7, 0x10C7, 1), (0x10CD, 0x10CD, 1), (0x13A0, 0x13F5, 1), (0x1C90, 0x1CBA, 1),
  (0x1CBD, 0x1CBF, 1), (0x1E00, 0x1E94, 2), (0x1E9E, 0x1EFE, 2), (0x1F08, 0x1F0F, 1),
  (0x1F18, 0x1F1D, 1), (0x1F28, 0x1F2F, 1), (0x1F38, 0x1F3F, 1), (0x1F48, 0x1F4D, 1),
  (0x1F59, 0x1F5F, 2), (0x1F68, 0x1F6F, 1), (0x1FB8, 0x1FBB, 1), (0x1FC8, 0x1FCB, 1),
  (0x1FD8, 0x1FDB, 1), (0x1FE8, 0x1FEC, 1), (0x1FF8, 0x1FFB, 1), (0x2102, 0x2102, 1),
  (0x2107, 0x2107, 1), (0x210B, 0x210D, 1), (0x2110, 0x2112, 1), (0x2115, 0x2115, 1),
  (0x2119, 0x211D, 1), (0x2124, 0x212A, 2), (0x212B, 0x212D, 1), (0x2130, 0x2133, 1),
  (0x213E, 0x213F, 1), (0x2145, 0x2145, 1), (0x2183, 0x2183, 1), (0x2C00, 0x2C2F, 1),
  (0x2C60, 0x2C62, 2), (0x2C63, 0x2C64, 1), (0x2C67, 0x2C6D, 2), (0x2C6E, 0x2C70, 1),
  (0x2C72, 0x2C72, 1), (0x2C75, 0x2C75, 1), (0x2C7E, 0x2C80, 1), (0x2C82, 0x2CE2, 2),
  (0x2CEB, 0x2CED, 2), (0x2CF2, 0x2CF2, 1), (0xA640, 0xA66C, 2), (0xA680, 0xA69A, 2),
  (0xA722, 0xA72E, 2), (0xA732, 0xA76E, 2), (0xA779, 0xA77D, 2), (0xA77E, 0xA786, 2),
  (0xA78B, 0xA78D, 2), (0xA790, 0xA792, 2), (0xA796, 0xA7AA, 2), (0xA7AB, 0xA7AE, 1),
  (0xA7B0, 0xA7B4, 1), (0xA7B6, 0xA7C4, 2), (0xA7C5, 0xA7C7, 1), (0xA7C9, 0xA7C9, 1),
  (0xA7D0, 0xA7D0, 1), (0xA7D6, 0xA7D8, 2), (0xA7F5, 0xA7F5, 1), (0xFF21, 0xFF3A, 1),
  (0x10400, 0x10427, 1), (0x104B0, 0x104D3, 1), (0x10570, 0x1057A, 1), (0x1057C, 0x1058A, 1),
  (0x1058C, 0x10592, 1), (0x10594, 0x10595, 1), (0x10C80, 0x10CB2, 1), (0x118A0, 0x118BF, 1),
  (0x16E40, 0x16E5F, 1), (0x1D400, 0x1D419, 1), (0x1D434, 0x1D44D, 1), (0x1D468, 0x1D481, 1),
  (0x1D49C, 0x1D49E, 2), (0x1D49F, 0x1D49F, 1), (0x1D4A2, 0x1D4A2, 1), (0x1D4A5, 0x1D4A6, 1),
  (0x1D4A9, 0x1D4AC, 1), (0x1D4AE, 0x1D4B5, 1), (0x1D4D0, 0x1D4E9, 1), (0x1D504, 0x1D505, 1),
  (0x1D507, 0x1D50A, 1), (0x1D50D, 0x1D514, 1), (0x1D516, 0x1D51C, 1), (0x1D538, 0x1D539, 1),
  (0x1D53B, 0x1D53E, 1), (0x1D540, 0x1D544, 1), (0x1D546, 0x1D546, 1), (0x1D54A, 0x1D550, 1),
  (0x1D56C, 0x1D585, 1), (0x1D5A0, 0x1D5B9, 1), (0x1D5D4, 0x1D5ED, 1), (0x1D608, 0x1D621, 1),
  (0x1D63C, 0x1D655, 1), (0x1D670, 0x1D689, 1), (0x1D6A8, 0x1D6C0, 1), (0x1D6E2, 0x1D6FA, 1),
  (0x1D71C, 0x1D734, 1), (0x1D756, 0x1D76E, 1), (0x1D790, 0x1D7A8, 1), (0x1D7CA, 0x1D7CA, 1),
  (0x1E900, 0x1E921, 1) ]

/-- `unicode.IsUpper(r)`: whether the rune is an upper-case letter. -/
def unicodeIsUpper (c : Char) : Bool :=
  upperRanges.any (fun r =>
    decide (r.1 ≤ c.toNat) && decide (c.toNat ≤ r.2.1) && decide ((c.toNat - r.1) % r.2.2 = 0))

/-- Whether the images of a range are runes that are valid, stay clear of the
ASCII upper-case letters, `_` and `/`, and whether the range is well formed. -/
def rangeOk (r : CaseRange) : Bool :=
  decide (0x80 ≤ r.lo) && decide (r.lo ≤ r.hi) &&
  (decide (r.stride = 1) || decide (r.stride = 2)) &&
  decide (0x5F < r.target) &&
  (decide (r.target + (r.hi - r.lo) < 0xD800) ||
    (decide (0xE000 ≤ r.target) && decide (r.target + (r.hi - r.lo) < 0x110000)))

/-- Whether no image of the range `r` is a rune of the range `r'`: the two lie
apart, or they alternate with different parity. -/
def pairOk (r r' : CaseRange) : Bool :=
  decide (r.target + (r.hi - r.lo) < r'.lo) || decide (r'.hi < r.target) ||
  ((decide (r.stride = 2) || decide (r.lo = r.hi)) && decide (r'.stride = 2) &&
    decide (r.target % 2 ≠ r'.lo % 2))

/-- The check of the whole table: every range is well formed and no image of a
range is itself in a range. -/
def tableOk : Bool :=
  lowerRanges.all (fun r => rangeOk r && lowerRanges.all (fun r' => pairOk r r'))

/-! ## The Go `strings` functions used by the program -/

/-- `strings.Split(s, sep)` for a one-character separator: the substrings of `s`
between occurrences of `sep`; the result always has one more element than
there are separators in `s`. -/
def Split : GoString → Char → List GoString
  | [], _ => [[]]
  | c :: cs, sep =>
    if c = sep then [] :: Split cs sep
    else
      match Split cs sep with
      | [] => [[c]]
      | part :: parts => (c :: part) :: parts

/-- `strings.Join(elems, sep)`: the elements concatenated, `sep` between each
two neighbours. -/
def Join : List GoString → GoString → GoString
  | [], _ => []
  | [e], _ => e
  | e :: es, sep => e ++ sep ++ Join es sep

/-- `strings.ToLower(s)` on a text: every character replaced by its lower-case
form `unicode.ToLower`. -/
def ToLower (s : GoString) : GoString :=
  s.map unicodeToLower

/-- `strings.Replace(s, old, new, -1)` for one-character `old` and `new`: every
occurrence of `old` replaced by `new`. -/
def Replace (s : GoString) (old new : Char) : GoString :=
  s.map (fun c => if c = old then new else c)

/-! ## `pipeline_definition.go`: the data model -/

/-- An element of `PipelineDefinitionStep.Inputs` (an anonymous struct in Go). -/
structure InputReference where
  Step : GoString
  Version : GoString
  Branch : GoString
  Path : GoString
  Bucket : GoString
  deriving DecidableEq, Repr

/-- The `Resources` field of `PipelineDefinitionStep` (an anonymous struct in Go). -/
structure StepResources where
  CPU : Int
  Memory : GoString
  Storage : Int
  deriving DecidableEq, Repr

/-- Go `type PipelineDefinitionStep struct`. -/
structure PipelineDefinitionStep where
  Step : GoString
  Version : GoString
  Branch : GoString
  Image : GoString
  Inputs : List InputReference
  Commands : List GoString
  Resources : StepResources
  deriving DecidableEq, Repr

/-- Go `type PipelineDefinition struct`. -/
structure PipelineDefinition where
  Pipeline : GoString
  Bucket : GoString
  Namespace : GoString
  Steps : List PipelineDefinitionStep
  Secrets : List GoString
  deriving DecidableEq, Repr

/-! ## `pipeline_definition.go`: the override operations -/

/-- `func (p *PipelineDefinitionStep) OverrideTag(tag string)`.
`currentParts[0]` is the first element of the split, which always exists
(`Split_ne_nil`). -/
def OverrideTag (p : PipelineDefinitionStep) (tag : GoString) : PipelineDefinitionStep :=
  if tag ≠ [] then
    let currentParts := Split p.Image ':'
    let parts := [currentParts.headD [], tag]
    { p with Image := Join parts [':'] }
  else p

/-- `func (p *PipelineDefinitionStep) OverrideVersion(version string, overrideInputs bool)`. -/
def OverrideVersion (p : PipelineDefinitionStep) (version : GoString)
    (overrideInputs : Bool) : PipelineDefinitionStep :=
  if version ≠ [] then
    let p := { p with Version := version }
    if overrideInputs then
      { p with Inputs := p.Inputs.map (fun input => { input with Version := version }) }
    else p
  else p

/-- `func (p *PipelineDefinitionStep) OverrideBranch(branch string, overrideInputs bool)`. -/
def OverrideBranch (p : PipelineDefinitionStep) (branch : GoString)
    (overrideInputs : Bool) : PipelineDefinitionStep :=
  if branch ≠ [] then
    let p := { p with Branch := branch }
    if overrideInputs then
      { p with Inputs := p.Inputs.map (fun input => { input with Branch := branch }) }
    else p
  else p

/-! ## `pipeline_definition.go`: `parsePipeline` and the bucket default

The regular expression of `parsePipeline` is `default\('(.+)'\)`: the text
`default('`, a group of one or more characters other than a newline, and the
text `')`.  `FindStringSubmatch` returns the leftmost match, and in it the
group that a backtracking search finds first, `.+` taking as many characters
as it can. -/

/-- The group `(.+)` followed by `')`, matched at the head of `s`: the group
takes one character (not a newline), then first tries to take more, and only
then accepts `')` as what follows. -/
def matchGroup : GoString → Option GoString
  | [] => none
  | c :: rest =>
    if c = '\n' then none
    else
      match matchGroup rest with
      | some more => some (c :: more)
      | none => if "')".toList.isPrefixOf rest then some [c] else none

/-- The whole expression matched at the head of `s`; the result is the group. -/
def matchHere (s : GoString) : Option GoString :=
  if "default('".toList.isPrefixOf s then matchGroup (s.drop "default('".toList.length)
  else none

/-- `r.FindStringSubmatch(s)` for `r = default\('(.+)'\)`: the leftmost match
and its group, or `nil` (the empty list) when there is no match. -/
def FindStringSubmatch : GoString → List GoString
  | [] => []
  | c :: cs =>
    match matchHere (c :: cs) with
    | some group => ["default('".toList ++ group ++ "')".toList, group]
    | none => FindStringSubmatch cs

/-- The statements of `parsePipeline` after `yaml.Unmarshal`: the bucket is
replaced by the group when the expression matches (`submatches` is the Go
variable `matches`, with `matches[1]` its element of index 1). -/
def normalizeBucket (pipeline : PipelineDefinition) : PipelineDefinition :=
  let submatches := FindStringSubmatch pipeline.Bucket
  if submatches ≠ [] ∧ submatches.getD 1 [] ≠ [] then
    { pipeline with Bucket := submatches.getD 1 [] }
  else pipeline

/-- `func parsePipeline(data []byte) *PipelineDefinition`, with the YAML decoder
`yaml.Unmarshal` as a parameter; `none` is the `log.Fatalf` exit on a decoding
error. -/
def parsePipeline (unmarshal : GoString → Option PipelineDefinition) (data : GoString) :
    Option PipelineDefinition :=
  match unmarshal data with
  | none => none
  | some pipeline => some (normalizeBucket pipeline)

/-! ## `template.go`: the pod descriptor -/

/-- Go `type PodSecret struct`. -/
structure PodSecret where
  Name : GoString
  Store : GoString
  Key : GoString
  deriving DecidableEq, Repr

/-- Go `type PodDefinition struct`. -/
structure PodDefinition where
  PodName : GoString
  StepName : GoString
  StepVersion : GoString
  BranchName : GoString
  Namespace : GoString
  Bucket : GoString
  Secrets : List PodSecret
  Step : PipelineDefinitionStep
  deriving DecidableEq, Repr

/-- `func sanitizeName(name string) string`. -/
def sanitizeName (name : GoString) : GoString :=
  let str := ToLower name
  let str := Replace str '_' '-'
  let str := Replace str '/' '-'
  str

/-- The effect of `sanitizeName` on one character: lower it, then turn `_` and
`/` into `-` (`sanitizeName_eq_map` relates it to `sanitizeName`). -/
def sanitizeChar (c : Char) : Char :=
  let c := unicodeToLower c
  let c := if c = '_' then '-' else c
  if c = '/' then '-' else c

/-- `func NewPodDefinition(pipelineDefinition, pipelineDefinitionStep) *PodDefinition`;
`fmt.Sprintf("%s-%s-%s", a, b, c)` is `a`, `-`, `b`, `-`, `c` concatenated. -/
def NewPodDefinition (pipelineDefinition : PipelineDefinition)
    (pipelineDefinitionStep : PipelineDefinitionStep) : PodDefinition :=
  let stepName := sanitizeName pipelineDefinitionStep.Step
  let branchName := sanitizeName pipelineDefinitionStep.Branch
  let stepVersion := sanitizeName pipelineDefinitionStep.Version
  let podName := sanitizeName pipelineDefinition.Pipeline ++ ['-'] ++ stepName ++ ['-'] ++ branchName
  { PodName := podName
    Namespace := pipelineDefinition.Namespace
    Step := pipelineDefinitionStep
    Bucket := pipelineDefinition.Bucket
    StepName := stepName
    StepVersion := stepVersion
    BranchName := branchName
    Secrets := [] }

/-! ## `sanitizeName` on byte strings

A Go `string` is a sequence of bytes, and `strings.ToLower` reads it as UTF-8:
it decodes the runes one after the other, a byte that starts no valid encoding
being read as the rune `U+FFFD` of width 1, lowers each rune and writes its
UTF-8 encoding (`strings.Map`; on an ASCII string this is the byte-wise
lowering of the fast path of `ToLower`).  `GoString` holds the text, that is
the strings that are valid UTF-8; `utf8Encode` gives their bytes, and
`sanitizeNameBytes_utf8Encode` below shows that `sanitizeName` on the text is
`sanitizeNameBytes` on those bytes.  Bytes are natural numbers below 256. -/

/-- A Go `string` as its bytes. -/
abbrev ByteString := List Nat

/-- `utf8.RuneError`, the rune `U+FFFD`. -/
def RuneError : Char := Char.ofNat 0xFFFD

/-- `utf8.EncodeRune`: the UTF-8 encoding of a rune, one to four bytes. -/
def encodeRune (c : Char) : ByteString :=
  if c.toNat < 0x80 then [c.toNat]
  else if c.toNat < 0x800 then [0xC0 + c.toNat / 0x40, 0x80 + c.toNat % 0x40]
  else if c.toNat < 0x10000 then
    [0xE0 + c.toNat / 0x1000, 0x80 + c.toNat / 0x40 % 0x40, 0x80 + c.toNat % 0x40]
  else
    [0xF0 + c.toNat / 0x40000, 0x80 + c.toNat / 0x1000 % 0x40, 0x80 + c.toNat / 0x40 % 0x40,
     0x80 + c.toNat % 0x40]

/-- The bytes of a text: the encodings of its characters. -/
def utf8Encode (s : GoString) : ByteString :=
  s.flatMap encodeRune

/-- The least second byte that `utf8.DecodeRuneInString` accepts after the
first byte `b0` (the table `acceptRanges`). -/
def acceptLo (b0 : Nat) : Nat :=
  if b0 = 0xE0 then 0xA0 else if b0 = 0xF0 then 0x90 else 0x80

/-- The greatest second byte accepted after the first byte `b0`. -/
def acceptHi (b0 : Nat) : Nat :=
  if b0 = 0xED then 0x9F else if b0 = 0xF4 then 0x8F else 0xBF

/-- `utf8.DecodeRuneInString`: the rune at the head of `s` and its width in
bytes; `(RuneError, 1)` when the head starts no valid encoding. -/
def decodeRune : ByteString → Char × Nat
  | [] => (RuneError, 0)
  | b0 :: rest =>
    if b0 < 0x80 then (Char.ofNat b0, 1)
    else if b0 < 0xC2 ∨ 0xF4 < b0 then (RuneError, 1)
    else if b0 < 0xE0 then
      match rest with
      | b1 :: _ =>
        if acceptLo b0 ≤ b1 ∧ b1 ≤ acceptHi b0 then
          (Char.ofNat (b0 % 0x20 * 0x40 + b1 % 0x40), 2)
        else (RuneError, 1)
      | _ => (RuneError, 1)
    else if b0 < 0xF0 then
      match rest with
      | b1 :: b2 :: _ =>
        if acceptLo b0 ≤ b1 ∧ b1 ≤ acceptHi b0 ∧ 0x80 ≤ b2 ∧ b2 ≤ 0xBF then
          (Char.ofNat (b0 % 0x10 * 0x1000 + b1 % 0x40 * 0x40 + b2 % 0x40), 3)
        else (RuneError, 1)
      | _ => (RuneError, 1)
    else
      match rest with
      | b1 :: b2 :: b3 :: _ =>
        if acceptLo b0 ≤ b1 ∧ b1 ≤ acceptHi b0 ∧ 0x80 ≤ b2 ∧ b2 ≤ 0xBF ∧
            0x80 ≤ b3 ∧ b3 ≤ 0xBF then
          (Char.ofNat (b0 % 0x08 * 0x40000 + b1 % 0x40 * 0x1000 + b2 % 0x40 * 0x40 + b3 % 0x40),
            4)
        else (RuneError, 1)
      | _ => (RuneError, 1)

/-- The runes of `for _, c := range s`: the rune at the head, then the runes
after its bytes; `skip` is the number of bytes of the current rune still to
pass over. -/
def decodeRunes : Nat → ByteString → GoString
  | _, [] => []
  | skip + 1, _ :: rest => decodeRunes skip rest
  | 0, b :: rest =>
    (decodeRune (b :: rest)).1 :: decodeRunes ((decodeRune (b :: rest)).2 - 1) rest

/-- `strings.ToLower(s)` on the bytes of `s`. -/
def ToLowerBytes (s : ByteString) : ByteString :=
  (decodeRunes 0 s).flatMap (fun c => encodeRune (unicodeToLower c))

/-- `strings.Replace(s, old, new, -1)` on the bytes of `s`, for `old` and `new`
of one byte each. -/
def ReplaceBytes (s : ByteString) (old new : Nat) : ByteString :=
  s.map (fun b => if b = old then new else b)

/-- `func sanitizeName(name string) string` on the bytes of `name`; `0x5F` is
`_`, `0x2F` is `/` and `0x2D` is `-`. -/
def sanitizeNameBytes (name : ByteString) : ByteString :=
  let str := ToLowerBytes name
  let str := ReplaceBytes str 0x5F 0x2D
  let str := ReplaceBytes str 0x2F 0x2D
  str

/-! ## `cli/data`: the object key filter -/

/-- Go `S3Path{bucket, path}` of `cli/data`, as the tests build it. -/
structure S3Path where
  bucket : GoString
  path : GoString
  deriving DecidableEq, Repr

/-- An `s3.Object` of the listing: its key, and its size to tell apart two
listed objects. -/
structure S3Object where
  Key : GoString
  Size : Int
  deriving DecidableEq, Repr

/-- The failure of the filter: the requested keys that were not resolved. -/
structure LookupError where
  unresolved : List GoString
  deriving DecidableEq, Repr

/-- The listed objects whose key equals `pathPrefix + key`, by string equality. -/
def matchingObjects (s3Path : S3Path) (objs : List S3Object) (key : GoString) :
    List S3Object :=
  objs.filter (fun obj => obj.Key = s3Path.path ++ key)

/-- Modelled from the spec: `filterObjects(s3Path, objs, keys)` of `cli/data`,
whose source file is absent (only `get_test.go` calls it); it returns the Go
pair `(result, err)`.  With no requested key it returns every listed object
whose key starts with the path prefix.  Otherwise each requested key requires
exactly one listed object whose key equals `pathPrefix + key`; if some key is
not resolved the call fails, names the unresolved keys and returns no object;
else it returns the matched objects, one per requested key. -/
def filterObjects (s3Path : S3Path) (objs : List S3Object) (keys : List GoString) :
    List S3Object × Option LookupError :=
  if keys = [] then
    (objs.filter (fun obj => s3Path.path.isPrefixOf obj.Key), none)
  else
    let unresolved := keys.filter (fun key => (matchingObjects s3Path objs key).length ≠ 1)
    if unresolved = [] then
      (keys.flatMap (fun key => matchingObjects s3Path objs key), none)
    else
      ([], some { unresolved := unresolved })

/-! ## The symmetry between version and branch -/

/-- An input with its `Version` and `Branch` exchanged. -/
def swapInputVersionBranch (input : InputReference) : InputReference :=
  { input with Version := input.Branch, Branch := input.Version }

/-- A step with `Version` and `Branch` exchanged, in the step and in each of
its inputs. -/
def swapVersionBranch (p : PipelineDefinitionStep) : PipelineDefinitionStep :=
  { p with
    Version := p.Branch
    Branch := p.Version
    Inputs := p.Inputs.map swapInputVersionBranch }

/-! ## Sample values -/

/-- A step with a two-colon image and two inputs. -/
def sampleStep : PipelineDefinitionStep :=
  { Step := "Train_Model".toList
    Version := "v1".toList
    Branch := "feature/X".toList
    Image := "a:b:c".toList
    Inputs :=
      [ { Step := "prep".toList, Version := "v0".toList, Branch := "master".toList,
          Path := "out".toList, Bucket := [] },
        { Step := "load".toList, Version := "v7".toList, Branch := "dev".toList,
          Path := "raw".toList, Bucket := "b2".toList } ]
    Commands := ["make train".toList]
    Resources := { CPU := 2, Memory := "1Gi".toList, Storage := 100 } }

/-- A step whose version and input names have upper-case letters and
underscores. -/
def sampleStepMixedCase : PipelineDefinitionStep :=
  { sampleStep with
    Version := "V_1".toList
    Inputs :=
      [ { Step := "Prep_Data".toList, Version := "V_0".toList, Branch := "Feature/Y".toList,
          Path := "out".toList, Bucket := [] } ] }

/-- A pipeline definition holding `sampleStep`. -/
def samplePipeline : PipelineDefinition :=
  { Pipeline := "My_Pipe".toList
    Bucket := "bkt".toList
    Namespace := "ns".toList
    Steps := [sampleStep]
    Secrets := [] }

/-! ## `template.go`: rendering the pod template

`compile` executes the constant `podTemplate` on the descriptor.  The template
has no trim markers, so the text between two actions is copied as it stands;
an action that names a string field writes the field, `.Step.Resources.CPU`
writes the decimal form of the integer, and a `range` writes its body once per
element, in order.  The definitions below hold the text of the template, cut
at its actions. -/

/-- The text written for a Go `int` field: its decimal form. -/
def formatInt (n : Int) : GoString :=
  (toString n).toList

/-- The body of `range $index, $command := .Step.Commands`: the line
`(command) &&` of the main container's shell command. -/
def renderCommand (command : GoString) : GoString :=
  ("\n" ++
     "          (").toList ++ command ++
  (") &&\n" ++
     "          ").toList

/-- The body of `range $index, $secret := .Secrets`, the same in both containers:
one `env` entry with a `secretKeyRef`. -/
def renderSecret (secret : PodSecret) : GoString :=
  ("\n" ++
     "        -\n" ++
     "          name: ").toList ++ secret.Name ++
  ("\n" ++
     "          valueFrom:\n" ++
     "            secretKeyRef:\n" ++
     "              name: ").toList ++ secret.Store ++
  ("\n" ++
     "              key: ").toList ++ secret.Key ++
  ("\n" ++
     "        ").toList

/-- The `paddle data get` command of one input, in the body of
`range $index, $input := .Step.Inputs`; only the branch goes through
`sanitizeName`. -/
def getCommand (input : InputReference) : GoString :=
  "paddle data get ".toList ++ input.Step ++ ("/").toList ++ input.Version ++
  (" $INPUT_PATH -b ").toList ++ sanitizeName input.Branch ++ (" -p ").toList ++ input.Path

/-- The body of `range $index, $input := .Step.Inputs`. -/
def renderInput (input : InputReference) : GoString :=
  ("\n" ++
     "          ").toList ++ getCommand input ++
  (" &&\n" ++
     "          ").toList

/-- The `paddle data commit` command of the paddle container:
`.StepName`, `.Step.Version` and `.BranchName`. -/
def commitCommand (p : PodDefinition) : GoString :=
  "paddle data commit $OUTPUT_PATH ".toList ++ p.StepName ++ ("/").toList ++ p.Step.Version ++
  (" -b ").toList ++ p.BranchName

/-- The template from its start to the end of the main container: metadata,
labels, volume, and the main container with its shell command and `env`. -/
def renderMain (p : PodDefinition) : GoString :=
  ("\n" ++
     "apiVersion: v1\n" ++
     "kind: Pod\n" ++
     "metadata:\n" ++
     "  name: \"").toList ++ p.PodName ++
  ("\"\n" ++
     "  namespace: ").toList ++ p.Namespace ++
  ("\n" ++
     "  labels:\n" ++
     "    canoe.executor: paddle\n" ++
     "    canoe.step.name: ").toList ++ p.StepName ++
  ("\n" ++
     "    canoe.step.branch: ").toList ++ p.BranchName ++
  ("\n" ++
     "    canoe.step.version: ").toList ++ p.StepVersion ++
  ("\n" ++
     "spec:\n" ++
     "  restartPolicy: Never\n" ++
     "  volumes:\n" ++
     "    -\n" ++
     "      name: shared-data\n" ++
     "      emptyDir:\n" ++
     "        medium: ''\n" ++
     "  containers:\n" ++
     "    -\n" ++
     "      name: main\n" ++
     "      image: \"").toList ++ p.Step.Image ++
  ("\"\n" ++
     "      volumeMounts:\n" ++
     "        -\n" ++
     "          name: shared-data\n" ++
     "          mountPath: /data\n" ++
     "      resources:\n" ++
     "        limits:\n" ++
     "          cpu: \"").toList ++ formatInt p.Step.Resources.CPU ++
  ("\"\n" ++
     "          memory: \"").toList ++ p.Step.Resources.Memory ++
  ("\"\n" ++
     "      command:\n" ++
     "        - \"/bin/sh\"\n" ++
     "        - \"-c\"\n" ++
     "        - \"while true; do if [ -e /data/first-step.txt ]; then ((\n" ++
     "          ").toList ++ p.Step.Commands.flatMap renderCommand ++
  ("\n" ++
     "          touch /data/main-passed.txt) || (touch /data/main-failed.txt && exit 1)) && touch /data/main.txt; break; fi; done\"\n" ++
     "      env:\n" ++
     "        -\n" ++
     "          name: INPUT_PATH\n" ++
     "          value: /data/input\n" ++
     "        -\n" ++
     "          name: OUTPUT_PATH\n" ++
     "          value: /data/output\n" ++
     "        -\n" ++
     "          name: AWS_ACCESS_KEY_ID\n" ++
     "          valueFrom:\n" ++
     "            secretKeyRef:\n" ++
     "              name: aws-credentials-training\n" ++
     "              key: aws-access-key-id\n" ++
     "        -\n" ++
     "          name: AWS_SECRET_ACCESS_KEY\n" ++
     "          valueFrom:\n" ++
     "            secretKeyRef:\n" ++
     "              name: aws-credentials-training\n" ++
     "              key: aws-secret-access-key\n" ++
     "        ").toList ++ p.Secrets.flatMap renderSecret

/-- The rest of the template: the paddle container with its shell command and
`env`. -/
def renderPaddle (p : PodDefinition) : GoString :=
  ("\n" ++
     "    -\n" ++
     "      name: paddle\n" ++
     "      image: \"219541440308.dkr.ecr.eu-west-1.amazonaws.com/paddlecontainer:latest\"\n" ++
     "      volumeMounts:\n" ++
     "        -\n" ++
     "          name: shared-data\n" ++
     "          mountPath: /data\n" ++
     "      command:\n" ++
     "        - \"/bin/sh\"\n" ++
     "        - \"-c\"\n" ++
     "        - \"mkdir -p $INPUT_PATH $OUTPUT_PATH &&\n" ++
     "          ").toList ++ p.Step.Inputs.flatMap renderInput ++
  ("\n" ++
     "          touch /data/first-step.txt &&\n" ++
     "          echo first step finished &&\n" ++
     "          (while true; do\n" ++
     "            if [ -e /data/main-failed.txt ]; then\n" ++
     "              exit 1;\n" ++
     "            fi;\n" ++
     "            if [ -e /data/main-passed.txt ]; then\n" ++
     "              ").toList ++ commitCommand p ++
  (";\n" ++
     "              exit 0;\n" ++
     "            fi;\n" ++
     "          done)\"\n" ++
     "      env:\n" ++
     "        -\n" ++
     "          name: BUCKET\n" ++
     "          value: \"").toList ++ p.Bucket ++
  ("\"\n" ++
     "        -\n" ++
     "          name: AWS_REGION\n" ++
     "          value: eu-west-1\n" ++
     "        -\n" ++
     "          name: INPUT_PATH\n" ++
     "          value: /data/input\n" ++
     "        -\n" ++
     "          name: OUTPUT_PATH\n" ++
     "          value: /data/output\n" ++
     "        -\n" ++
     "          name: AWS_ACCESS_KEY_ID\n" ++
     "          valueFrom:\n" ++
     "            secretKeyRef:\n" ++
     "              name: aws-credentials\n" ++
     "              key: aws-access-key-id\n" ++
     "        -\n" ++
     "          name: AWS_SECRET_ACCESS_KEY\n" ++
     "          valueFrom:\n" ++
     "            secretKeyRef:\n" ++
     "              name: aws-credentials\n" ++
     "              key: aws-secret-access-key\n" ++
     "        ").toList ++ p.Secrets.flatMap renderSecret ++
  ("\n").toList

/-- `func (p PodDefinition) compile() *bytes.Buffer`: the contents of the buffer
after `tmpl.Execute(buffer, p)` on a new buffer.  The template is a constant
that parses, and no action of it can fail on a `PodDefinition`, so neither
`template.Must` nor the `panic` branch is taken. -/
def compile (p : PodDefinition) : GoString :=
  renderMain p ++ renderPaddle p

/-- The fields of a descriptor that `podTemplate` names in an action; of each
input the step, version, branch and path. -/
def templateFields (p : PodDefinition) :
    GoString × GoString × GoString × GoString × GoString × GoString × List PodSecret ×
    GoString × Int × GoString × List GoString × GoString ×
    List (GoString × GoString × GoString × GoString) :=
  (p.PodName, p.Namespace, p.StepName, p.BranchName, p.StepVersion, p.Bucket, p.Secrets,
    p.Step.Image, p.Step.Resources.CPU, p.Step.Resources.Memory, p.Step.Commands,
    p.Step.Version,
    p.Step.Inputs.map (fun input => (input.Step, input.Version, input.Branch, input.Path)))

/-! ## `template.go`: the shell command of the main container

The command of the main container is a `/bin/sh -c` script.  Its text, with
`(c1) && ... && (cn) &&` standing for the lines that the `range` over
`.Step.Commands` writes, is

    while true; do if [ -e /data/first-step.txt ]; then ((
      (c1) && ... && (cn) &&
      touch /data/main-passed.txt) || (touch /data/main-failed.txt && exit 1))
      && touch /data/main.txt; break; fi; done

`Sh` holds the shell constructs of that script and `exec` runs them on the set
of sentinel files of the shared volume `/data`.  A step command is taken with
its outcome alone (success or failure): it ends, and it does not write a
sentinel file itself. -/

/-- The sentinel files on the shared volume `/data`. -/
inductive Sentinel where
  | firstStep
  | mainPassed
  | mainFailed
  | mainDone
  deriving DecidableEq, Repr

/-- The file names: `first-step.txt`, `main-passed.txt`, `main-failed.txt` and
`main.txt`. -/
def Sentinel.fileName : Sentinel → GoString
  | .firstStep => "/data/first-step.txt".toList
  | .mainPassed => "/data/main-passed.txt".toList
  | .mainFailed => "/data/main-failed.txt".toList
  | .mainDone => "/data/main.txt".toList

/-- The shell constructs of the script. -/
inductive Sh where
  /-- A step command `(command)` with its outcome, `true` for exit status 0. -/
  | command (ok : Bool)
  /-- `touch file`. -/
  | touch (file : Sentinel)
  /-- `exit code`. -/
  | exitWith (code : Nat)
  /-- `break`. -/
  | breakLoop
  /-- `( list )`: a subshell. -/
  | subshell (body : Sh)
  /-- `a && b`. -/
  | andThen (a b : Sh)
  /-- `a || b`. -/
  | orElse (a b : Sh)
  /-- `a; b`. -/
  | sequence (a b : Sh)
  /-- `if [ -e file ]; then body; fi`. -/
  | ifExists (file : Sentinel) (body : Sh)
  /-- `while true; do body; done`. -/
  | whileTrue (body : Sh)
  deriving Repr

/-- How a construct ended: normally, or by an `exit` or a `break` that is still
to take effect in the enclosing constructs. -/
inductive Control where
  | normal
  | exiting
  | breaking
  deriving DecidableEq, Repr

/-- The result of running a construct: the sentinel files present afterwards,
the exit status, and how the construct ended. -/
structure Outcome where
  files : List Sentinel
  status : Nat
  control : Control
  deriving DecidableEq, Repr

/-- The volume after `touch file`: the file is present (once). -/
def touchFile (file : Sentinel) (files : List Sentinel) : List Sentinel :=
  if file ∈ files then files else files ++ [file]

/-- The iterations of `while true; do body; done`, at most `fuel` of them: a
`break` ends the loop with status 0, an `exit` goes on to the enclosing
constructs; `none` when the loop is still running after `fuel` iterations. -/
def execLoop : Nat → (List Sentinel → Option Outcome) → List Sentinel → Option Outcome
  | 0, _, _ => none
  | fuel + 1, body, files =>
    match body files with
    | none => none
    | some o =>
      match o.control with
      | .breaking => some { o with status := 0, control := .normal }
      | .exiting => some o
      | .normal => execLoop fuel body o.files

/-- Running a construct on the volume `files`; each loop makes at most `fuel`
iterations. -/
def exec (fuel : Nat) : Sh → List Sentinel → Option Outcome
  | .command ok, files => some { files := files, status := if ok then 0 else 1, control := .normal }
  | .touch file, files => some { files := touchFile file files, status := 0, control := .normal }
  | .exitWith code, files => some { files := files, status := code, control := .exiting }
  | .breakLoop, files => some { files := files, status := 0, control := .breaking }
  | .subshell body, files =>
    match exec fuel body files with
    | none => none
    | some o => some { o with control := .normal }
  | .andThen a b, files =>
    match exec fuel a files with
    | none => none
    | some o => if o.control = .normal ∧ o.status = 0 then exec fuel b o.files else some o
  | .orElse a b, files =>
    match exec fuel a files with
    | none => none
    | some o => if o.control = .normal ∧ o.status ≠ 0 then exec fuel b o.files else some o
  | .sequence a b, files =>
    match exec fuel a files with
    | none => none
    | some o => if o.control = .normal then exec fuel b o.files else some o
  | .ifExists file body, files =>
    if file ∈ files then exec fuel body files
    else some { files := files, status := 0, control := .normal }
  | .whileTrue body, files => execLoop fuel (exec fuel body) files

/-- `first && c1 && ... && cn`, grouped from the left as the shell groups it. -/
def andChain (first : Sh) (rest : List Sh) : Sh :=
  rest.foldl Sh.andThen first

/-- The list `(c1) && ... && (cn) && touch /data/main-passed.txt` of the script,
for step commands with the outcomes `outcomes`. -/
def stepCommands (outcomes : List Bool) : Sh :=
  match outcomes.map (fun ok => Sh.subshell (Sh.command ok)) ++ [Sh.touch .mainPassed] with
  | [] => Sh.touch .mainPassed
  | first :: rest => andChain first rest

/-- The script of the main container, for step commands with the outcomes
`outcomes`. -/
def mainScript (outcomes : List Bool) : Sh :=
  .whileTrue
    (.ifExists .firstStep
      (.sequence
        (.andThen
          (.subshell
            (.orElse
              (.subshell (stepCommands outcomes))
              (.subshell (.andThen (.touch .mainFailed) (.exitWith 1)))))
          (.touch .mainDone))
        .breakLoop))

/-! ## `template.go`: the two container scripts as interleaved processes

The command of the paddle container is the script

    mkdir -p $INPUT_PATH $OUTPUT_PATH &&
    paddle data get ... && ... &&
    touch /data/first-step.txt &&
    echo first step finished &&
    (while true; do
      if [ -e /data/main-failed.txt ]; then exit 1; fi;
      if [ -e /data/main-passed.txt ]; then paddle data commit ...; exit 0; fi;
    done)

with one `paddle data get` per input.  The two scripts run side by side on the
shared volume.  Each is taken as a machine that makes one step at a time (one
test of a file, one `touch`, one command), and an execution is a schedule: the
list of which container makes the next step.  The external commands (the step
commands, `mkdir`, `paddle data get`, `echo`) are taken with their outcome
alone, and they write no sentinel file.  Every step that matters for the order
of events is recorded in a log, oldest event first. -/

/-- The outcomes of the external commands in one execution: `true` for exit
status 0. -/
structure CommandOutcomes where
  commands : List Bool
  inputs : List Bool
  mkdirOk : Bool
  echoOk : Bool
  deriving DecidableEq, Repr

/-- Where the script of the main container stands. -/
inductive MainPc where
  /-- At `if [ -e /data/first-step.txt ]` of the loop. -/
  | waitForInput
  /-- In the `&&` list, before step command `next`; after the last command,
  before `touch /data/main-passed.txt`. -/
  | run (next : Nat)
  /-- A step command failed: before `touch /data/main-failed.txt && exit 1`. -/
  | failing
  /-- After `touch /data/main-passed.txt`: before `touch /data/main.txt`. -/
  | passed
  /-- After `break`: the script has ended. -/
  | finished
  deriving DecidableEq, Repr

/-- Where the script of the paddle container stands. -/
inductive PaddlePc where
  /-- Before `mkdir -p $INPUT_PATH $OUTPUT_PATH`. -/
  | mkdir
  /-- Before the `paddle data get` of input `next`; after the last input,
  before `touch /data/first-step.txt`. -/
  | fetch (next : Nat)
  /-- Before `echo first step finished`. -/
  | echo
  /-- At `if [ -e /data/main-failed.txt ]` of the loop. -/
  | checkFailed
  /-- At `if [ -e /data/main-passed.txt ]` of the loop. -/
  | checkPassed
  /-- Before `paddle data commit`. -/
  | commit
  /-- A command of the `&&` list failed: the script has ended. -/
  | aborted
  /-- After `exit 1`. -/
  | exitedOnFailure
  /-- After `exit 0`. -/
  | exited
  deriving DecidableEq, Repr

/-- The recorded events. -/
inductive Event where
  /-- Main found `first-step.txt` and enters the command list. -/
  | mainStartsRun
  /-- Main starts step command `index`. -/
  | mainRuns (index : Nat)
  /-- Main writes a sentinel file. -/
  | mainWrites (file : Sentinel)
  /-- Paddle writes a sentinel file. -/
  | paddleWrites (file : Sentinel)
  /-- Paddle finds `main-failed.txt`. -/
  | paddleSeesFailed
  /-- Paddle finds `main-passed.txt`. -/
  | paddleSeesPassed
  /-- Paddle starts `paddle data commit`. -/
  | paddleStartsCommit
  deriving DecidableEq, Repr

/-- The two scripts, the shared volume and the log. -/
structure PodState where
  main : MainPc
  paddle : PaddlePc
  files : List Sentinel
  log : List Event
  deriving DecidableEq, Repr

/-- The pod at its start: both scripts at their first command, the volume
empty. -/
def PodState.initial : PodState :=
  { main := .waitForInput, paddle := .mkdir, files := [], log := [] }

/-- One step of the script of the main container. -/
def mainStep (r : CommandOutcomes) (s : PodState) : PodState :=
  match s.main with
  | .waitForInput =>
    if Sentinel.firstStep ∈ s.files then
      { s with main := .run 0, log := s.log ++ [.mainStartsRun] }
    else s
  | .run next =>
    match r.commands[next]? with
    | some true => { s with main := .run (next + 1), log := s.log ++ [.mainRuns next] }
    | some false => { s with main := .failing, log := s.log ++ [.mainRuns next] }
    | none =>
      { s with main := .passed, files := touchFile .mainPassed s.files,
               log := s.log ++ [.mainWrites .mainPassed] }
  | .failing =>
    { s with main := .finished, files := touchFile .mainFailed s.files,
             log := s.log ++ [.mainWrites .mainFailed] }
  | .passed =>
    { s with main := .finished, files := touchFile .mainDone s.files,
             log := s.log ++ [.mainWrites .mainDone] }
  | .finished => s

/-- One step of the script of the paddle container. -/
def paddleStep (r : CommandOutcomes) (s : PodState) : PodState :=
  match s.paddle with
  | .mkdir => if r.mkdirOk then { s with paddle := .fetch 0 } else { s with paddle := .aborted }
  | .fetch next =>
    match r.inputs[next]? with
    | some true => { s with paddle := .fetch (next + 1) }
    | some false => { s with paddle := .aborted }
    | none =>
      { s with paddle := .echo, files := touchFile .firstStep s.files,
               log := s.log ++ [.paddleWrites .firstStep] }
  | .echo => if r.echoOk then { s with paddle := .checkFailed } else { s with paddle := .aborted }
  | .checkFailed =>
    if Sentinel.mainFailed ∈ s.files then
      { s with paddle := .exitedOnFailure, log := s.log ++ [.paddleSeesFailed] }
    else { s with paddle := .checkPassed }
  | .checkPassed =>
    if Sentinel.mainPassed ∈ s.files then
      { s with paddle := .commit, log := s.log ++ [.paddleSeesPassed] }
    else { s with paddle := .checkFailed }
  | .commit => { s with paddle := .exited, log := s.log ++ [.paddleStartsCommit] }
  | .aborted => s
  | .exitedOnFailure => s
  | .exited => s

/-- The two containers. -/
inductive Container where
  | main
  | paddle
  deriving DecidableEq, Repr

/-- One step of the pod: the scheduled container makes its step. -/
def podStep (r : CommandOutcomes) (s : PodState) : Container → PodState
  | .main => mainStep r s
  | .paddle => paddleStep r s

/-- The pod after the steps of a schedule, from its start. -/
def runSchedule (r : CommandOutcomes) (schedule : List Container) : PodState :=
  schedule.foldl (podStep r) PodState.initial

/-- In the log, every occurrence of `event` has an occurrence of `earlier`
before it. -/
def Precedes (earlier event : Event) (log : List Event) : Prop :=
  ∀ before after : List Event, log = before ++ event :: after → earlier ∈ before

/-- Outcomes for a sample execution: one step command and one input, all
commands succeeding. -/
def sampleOutcomes : CommandOutcomes :=
  { commands := [true], inputs := [true], mkdirOk := true, echoOk := true }

/-- A schedule in which both scripts run to their end. -/
def sampleSchedule : List Container :=
  [.main, .paddle, .paddle, .paddle, .main, .paddle, .main, .main, .paddle, .paddle, .main,
   .paddle, .paddle, .paddle]

/-- What holds of the pod after every schedule: the three orderings of the
protocol, and the facts about the volume and the two scripts that carry them
from one step to the next. -/
structure PodInvariant (s : PodState) : Prop where
  startsRun : Precedes (.paddleWrites .firstStep) .mainStartsRun s.log
  runs : ∀ i, Precedes (.paddleWrites .firstStep) (.mainRuns i) s.log
  commit : Precedes (.mainWrites .mainPassed) .paddleStartsCommit s.log
  firstStepFile : Sentinel.firstStep ∈ s.files → Event.paddleWrites .firstStep ∈ s.log
  mainRunning : s.main ≠ .waitForInput → Event.paddleWrites .firstStep ∈ s.log
  passedFile : Sentinel.mainPassed ∈ s.files → Event.mainWrites .mainPassed ∈ s.log
  atCommit : s.paddle = .commit → Event.mainWrites .mainPassed ∈ s.log
  sawFailed : Event.paddleSeesFailed ∈ s.log → s.paddle = .exitedOnFailure
  committed : Event.paddleStartsCommit ∈ s.log → s.paddle = .exited

/-! ## Lemmas on the string functions -/

theorem Split_ne_nil (s : GoString) (sep : Char) : Split s sep ≠ [] := by
  cases s with
  | nil => simp [Split]
  | cons c cs =>
    unfold Split
    split
    · simp
    · split <;> simp

/-- The first element of `Split s sep` is `s` up to its first `sep`. -/
theorem Split_headD (s : GoString) (sep : Char) :
    (Split s sep).headD [] = s.takeWhile (fun c => c != sep) := by
  induction s with
  | nil => simp [Split]
  | cons c cs ih =>
    unfold Split
    by_cases h : c = sep
    · simp [h]
    · simp only [h, if_false]
      have hne := Split_ne_nil cs sep
      cases hs : Split cs sep with
      | nil => exact absurd hs hne
      | cons part parts =>
        rw [hs] at ih
        simp only [List.headD_cons] at ih
        simp [List.takeWhile_cons, h, ih]

theorem takeWhile_ne_append_sep (a rest : GoString) (sep : Char) (h : sep ∉ a) :
    (a ++ sep :: rest).takeWhile (fun c => c != sep) = a := by
  induction a with
  | nil => simp
  | cons x xs ih =>
    have hx : x ≠ sep := fun e => h (by simp [e])
    have hxs : sep ∉ xs := fun m => h (List.mem_cons_of_mem _ m)
    simp [List.takeWhile_cons, hx, ih hxs]

theorem OverrideTag_image_eq (p : PipelineDefinitionStep) (tag : GoString) (h : tag ≠ []) :
    (OverrideTag p tag).Image = p.Image.takeWhile (fun c => c != ':') ++ ':' :: tag := by
  have hd := Split_headD p.Image ':'
  simp only [OverrideTag, h, ne_eq, not_false_eq_true, if_true, Join, hd]
  simp

theorem sep_not_mem_takeWhile (s : GoString) (sep : Char) :
    sep ∉ s.takeWhile (fun c => c != sep) := by
  intro hmem
  have := List.mem_takeWhile_imp hmem
  simp at this

theorem OverrideTag_twice (p : PipelineDefinitionStep) (x : GoString) :
    OverrideTag (OverrideTag p x) x = OverrideTag p x := by
  by_cases hx : x = []
  · simp [OverrideTag, hx]
  · have h1 := OverrideTag_image_eq p x hx
    have h2 := OverrideTag_image_eq (OverrideTag p x) x hx
    rw [h1, takeWhile_ne_append_sep _ _ ':' (sep_not_mem_takeWhile p.Image ':'), ← h1] at h2
    have hrest : OverrideTag (OverrideTag p x) x
        = { OverrideTag p x with Image := (OverrideTag (OverrideTag p x) x).Image } := by
      simp [OverrideTag, hx]
    rw [hrest, h2]

theorem OverrideVersion_twice (p : PipelineDefinitionStep) (x : GoString) (c : Bool) :
    OverrideVersion (OverrideVersion p x c) x c = OverrideVersion p x c := by
  by_cases hx : x = []
  · simp [OverrideVersion, hx]
  · cases c <;> simp [OverrideVersion, hx, Function.comp_def]

theorem OverrideBranch_twice (p : PipelineDefinitionStep) (x : GoString) (c : Bool) :
    OverrideBranch (OverrideBranch p x c) x c = OverrideBranch p x c := by
  by_cases hx : x = []
  · simp [OverrideBranch, hx]
  · cases c <;> simp [OverrideBranch, hx, Function.comp_def]

/-! ## Lemmas on the case table -/

set_option maxRecDepth 100000 in
theorem tableOk_true : tableOk = true := by decide

theorem lowerRanges_ok (r : CaseRange) (hr : r ∈ lowerRanges) :
    rangeOk r = true ∧ ∀ r' ∈ lowerRanges, pairOk r r' = true := by
  have h := tableOk_true
  unfold tableOk at h
  rw [List.all_eq_true] at h
  have h2 := h r hr
  rw [Bool.and_eq_true, List.all_eq_true] at h2
  exact h2

theorem covers_iff (r : CaseRange) (n : Nat) :
    r.covers n = true ↔ r.lo ≤ n ∧ n ≤ r.hi ∧ (n - r.lo) % r.stride = 0 := by
  simp [CaseRange.covers, and_assoc]

theorem rangeOk_iff (r : CaseRange) :
    rangeOk r = true ↔
      0x80 ≤ r.lo ∧ r.lo ≤ r.hi ∧ (r.stride = 1 ∨ r.stride = 2) ∧ 0x5F < r.target ∧
      (r.target + (r.hi - r.lo) < 0xD800 ∨
        (0xE000 ≤ r.target ∧ r.target + (r.hi - r.lo) < 0x110000)) := by
  simp [rangeOk, and_assoc]

theorem pairOk_iff (r r' : CaseRange) :
    pairOk r r' = true ↔
      r.target + (r.hi - r.lo) < r'.lo ∨ r'.hi < r.target ∨
      ((r.stride = 2 ∨ r.lo = r.hi) ∧ r'.stride = 2 ∧ r.target % 2 ≠ r'.lo % 2) := by
  simp [pairOk, and_assoc, or_assoc]

theorem pairOk_sound (r r' : CaseRange) (n : Nat) (hp : pairOk r r' = true)
    (hc : r.covers n = true) : r'.covers (r.target + (n - r.lo)) = false := by
  rw [Bool.eq_false_iff]
  intro hc'
  rw [covers_iff] at hc hc'
  rw [pairOk_iff] at hp
  obtain ⟨h1, h2, h3⟩ := hc
  obtain ⟨h1', h2', h3'⟩ := hc'
  rcases hp with hp | hp | ⟨hs, hs', hpar⟩
  · omega
  · omega
  · rw [hs'] at h3'
    rcases hs with hs | hs
    · rw [hs] at h3
      omega
    · have : n = r.lo := by omega
      subst this
      omega

theorem toLowerTable_of_not_covered (n : Nat)
    (h : ∀ r ∈ lowerRanges, r.covers n = false) : toLowerTable n = n := by
  unfold toLowerTable
  have : lowerRanges.find? (fun r => r.covers n) = none := by
    rw [List.find?_eq_none]
    intro r hr
    rw [h r hr]
    simp
  rw [this]

theorem toLowerTable_cases (n : Nat) :
    toLowerTable n = n ∨
      ∃ r ∈ lowerRanges, r.covers n = true ∧ toLowerTable n = r.target + (n - r.lo) := by
  unfold toLowerTable
  cases hf : lowerRanges.find? (fun r => r.covers n) with
  | none => exact Or.inl rfl
  | some r =>
    have hcov : r.covers n = true := by
      have h2 := List.find?_eq_some.mp hf
      exact h2.1
    exact Or.inr ⟨r, List.mem_of_find?_eq_some hf, hcov, rfl⟩

/-- A rune that the table gives as a lower-case form is its own lower-case
form. -/
theorem toLowerTable_idem (n : Nat) : toLowerTable (toLowerTable n) = toLowerTable n := by
  rcases toLowerTable_cases n with h | ⟨r, hr, hc, h⟩
  · rw [h, h]
  · rw [h]
    apply toLowerTable_of_not_covered
    intro r' hr'
    exact pairOk_sound r r' n ((lowerRanges_ok r hr).2 r' hr') hc

/-- A lower-case form given by the table is a valid rune above `_`; a rune
that the table leaves is above ASCII or untouched. -/
theorem toLowerTable_image (n : Nat) :
    toLowerTable n = n ∨
      (0x80 ≤ n ∧ 0x5F < toLowerTable n ∧
        (toLowerTable n < 0xD800 ∨ (0xE000 ≤ toLowerTable n ∧ toLowerTable n < 0x110000))) := by
  rcases toLowerTable_cases n with h | ⟨r, hr, hc, h⟩
  · exact Or.inl h
  · right
    have hok := (rangeOk_iff r).1 (lowerRanges_ok r hr).1
    rw [covers_iff] at hc
    rw [h]
    omega

theorem Char.toNat_ofNat_of_valid (n : Nat)
    (h : n < 0xD800 ∨ (0xE000 ≤ n ∧ n < 0x110000)) : (Char.ofNat n).toNat = n := by
  have hv : n.isValidChar := by
    rcases h with h | ⟨h1, h2⟩
    · exact Or.inl h
    · exact Or.inr ⟨by omega, h2⟩
  simp only [Char.ofNat, hv, dite_true, Char.ofNatAux, Char.toNat]
  rfl

theorem Char.toNat_valid (c : Char) :
    c.toNat < 0xD800 ∨ (0xE000 ≤ c.toNat ∧ c.toNat < 0x110000) := by
  rcases c.valid with h | ⟨h1, h2⟩
  · exact Or.inl h
  · exact Or.inr ⟨by simp only [Char.toNat]; omega, h2⟩

/-! ## Lemmas on `sanitizeName` -/

theorem sanitizeName_eq_map (name : GoString) : sanitizeName name = name.map sanitizeChar := by
  simp [sanitizeName, ToLower, Replace, sanitizeChar, Function.comp_def]

theorem ofNat_add_32_facts (n : Nat) (h1 : 65 ≤ n) (h2 : n ≤ 90) :
    (Char.ofNat (n + 32)).isUpper = false ∧ Char.ofNat (n + 32) ≠ '_' ∧
    Char.ofNat (n + 32) ≠ '/' ∧ (Char.ofNat (n + 32)).toLower = Char.ofNat (n + 32) := by
  interval_cases n <;> decide

theorem toLower_facts (c : Char) :
    c.toLower.isUpper = false ∧ c.toLower.toLower = c.toLower := by
  by_cases h : c.toNat ≥ 65 ∧ c.toNat ≤ 90
  · have e : c.toLower = Char.ofNat (c.toNat + 32) := by simp [Char.toLower, h]
    have f := ofNat_add_32_facts c.toNat h.1 h.2
    rw [e]
    exact ⟨f.1, f.2.2.2⟩
  · have e : c.toLower = c := by simp [Char.toLower, h]
    have hu : c.isUpper = false := by
      simp only [Char.isUpper, Bool.and_eq_false_iff, decide_eq_false_iff_not]
      simp only [Char.toNat, ge_iff_le, not_and_or, not_le] at h
      rcases h with h | h
      · left
        intro hge
        have h65 : 65 ≤ c.val.toNat := hge
        omega
      · right
        intro hle
        have h90 : c.val.toNat ≤ 90 := hle
        omega
    rw [e]
    exact ⟨hu, e⟩

theorem isUpper_false_of_toNat (c : Char) (h : c.toNat < 65 ∨ 90 < c.toNat) :
    c.isUpper = false := by
  simp only [Char.isUpper, Bool.and_eq_false_iff, decide_eq_false_iff_not]
  simp only [Char.toNat] at h
  rcases h with h | h
  · left
    intro hge
    have h65 : 65 ≤ c.val.toNat := hge
    omega
  · right
    intro hle
    have h90 : c.val.toNat ≤ 90 := hle
    omega

theorem toLower_of_not_upper (c : Char) (h : c.toNat < 65 ∨ 90 < c.toNat) : c.toLower = c := by
  have : ¬ (c.toNat ≥ 65 ∧ c.toNat ≤ 90) := by omega
  simp [Char.toLower, this]

theorem toLower_toNat_le (c : Char) (h : c.toNat ≤ 0x7F) : c.toLower.toNat ≤ 0x7F := by
  by_cases hu : c.toNat ≥ 65 ∧ c.toNat ≤ 90
  · have e : c.toLower = Char.ofNat (c.toNat + 32) := by simp [Char.toLower, hu]
    rw [e, Char.toNat_ofNat_of_valid _ (by omega)]
    omega
  · have e : c.toLower = c := by simp [Char.toLower, hu]
    rw [e]
    exact h

/-- `unicode.ToLower` gives no ASCII upper-case letter, and what it gives is its
own lower-case form. -/
theorem unicodeToLower_facts (c : Char) :
    (unicodeToLower c).isUpper = false ∧
    unicodeToLower (unicodeToLower c) = unicodeToLower c := by
  by_cases hascii : c.toNat ≤ 0x7F
  · have e : unicodeToLower c = c.toLower := by simp [unicodeToLower, hascii]
    have hl := toLower_facts c
    have h2 : unicodeToLower c.toLower = c.toLower.toLower := by
      simp [unicodeToLower, toLower_toNat_le c hascii]
    rw [e, h2]
    exact hl
  · have e : unicodeToLower c = Char.ofNat (toLowerTable c.toNat) := by
      simp [unicodeToLower, hascii]
    rw [e]
    rcases toLowerTable_image c.toNat with h | ⟨_, h5f, hvalid⟩
    · rw [h, Char.ofNat_toNat]
      refine ⟨isUpper_false_of_toNat c (by omega), ?_⟩
      rw [e, h, Char.ofNat_toNat]
    · have hn := Char.toNat_ofNat_of_valid _ hvalid
      refine ⟨isUpper_false_of_toNat _ (by rw [hn]; omega), ?_⟩
      by_cases hm : toLowerTable c.toNat ≤ 0x7F
      · have : unicodeToLower (Char.ofNat (toLowerTable c.toNat))
            = (Char.ofNat (toLowerTable c.toNat)).toLower := by
          simp [unicodeToLower, hn, hm]
        rw [this]
        exact toLower_of_not_upper _ (by rw [hn]; omega)
      · have : unicodeToLower (Char.ofNat (toLowerTable c.toNat))
            = Char.ofNat (toLowerTable (toLowerTable c.toNat)) := by
          simp [unicodeToLower, hn, hm]
        rw [this, toLowerTable_idem]

theorem sanitizeChar_facts (c : Char) :
    sanitizeChar c ≠ '_' ∧ sanitizeChar c ≠ '/' ∧ (sanitizeChar c).isUpper = false ∧
    unicodeToLower (sanitizeChar c) = sanitizeChar c ∧
    sanitizeChar (sanitizeChar c) = sanitizeChar c := by
  have hl := unicodeToLower_facts c
  have hdash : unicodeToLower '-' = '-' := by decide
  unfold sanitizeChar
  by_cases h1 : unicodeToLower c = '_'
  · simp only [h1, if_true]
    refine ⟨by decide, by decide, by decide, by decide, by decide⟩
  · by_cases h2 : unicodeToLower c = '/'
    · simp only [h2]
      refine ⟨by decide, by decide, by decide, by decide, by decide⟩
    · simp only [h1, h2, if_false]
      refine ⟨h1, h2, hl.1, hl.2, ?_⟩
      simp [hl.2, h1, h2]

/-! ## Lemmas on the UTF-8 encoding -/

theorem acceptLo_le (b0 b1 : Nat) (h : 0x80 ≤ b1) (hE0 : b0 = 0xE0 → 0xA0 ≤ b1)
    (hF0 : b0 = 0xF0 → 0x90 ≤ b1) : acceptLo b0 ≤ b1 := by
  unfold acceptLo
  split_ifs with h1 h2
  · exact hE0 h1
  · exact hF0 h2
  · exact h

theorem le_acceptHi (b0 b1 : Nat) (h : b1 ≤ 0xBF) (hED : b0 = 0xED → b1 ≤ 0x9F)
    (hF4 : b0 = 0xF4 → b1 ≤ 0x8F) : b1 ≤ acceptHi b0 := by
  unfold acceptHi
  split_ifs with h1 h2
  · exact hED h1
  · exact hF4 h2
  · exact h

/-- Every byte of an encoding is the rune itself, for an ASCII rune, or a byte
from `0x80` up. -/
theorem encodeRune_bytes (c : Char) (b : Nat) (hb : b ∈ encodeRune c) :
    (c.toNat < 0x80 ∧ b = c.toNat) ∨ (0x80 ≤ c.toNat ∧ 0x80 ≤ b ∧ b < 0x100) := by
  have hv := Char.toNat_valid c
  unfold encodeRune at hb
  split_ifs at hb with h1 h2 h3
  · simp only [List.mem_singleton] at hb
    exact Or.inl ⟨h1, hb⟩
  · simp only [List.mem_cons, List.mem_singleton, List.not_mem_nil, or_false] at hb
    right
    omega
  · simp only [List.mem_cons, List.mem_singleton, List.not_mem_nil, or_false] at hb
    right
    omega
  · simp only [List.mem_cons, List.mem_singleton, List.not_mem_nil, or_false] at hb
    right
    omega

theorem encodeRune_length_pos (c : Char) : 1 ≤ (encodeRune c).length := by
  unfold encodeRune
  split_ifs <;> simp

/-- Decoding reads back an encoded rune, with the width of its encoding. -/
theorem decodeRune_encodeRune (c : Char) (rest : ByteString) :
    decodeRune (encodeRune c ++ rest) = (c, (encodeRune c).length) := by
  have hv := Char.toNat_valid c
  have hc := Char.ofNat_toNat c
  unfold encodeRune
  generalize c.toNat = n at hv hc
  by_cases h1 : n < 0x80
  · rw [if_pos h1]
    simp only [List.singleton_append, decodeRune, if_pos h1, hc, List.length_singleton]
  · rw [if_neg h1]
    by_cases h2 : n < 0x800
    · rw [if_pos h2]
      have a1 : ¬ (0xC0 + n / 0x40 < 0x80) := by omega
      have a2 : ¬ (0xC0 + n / 0x40 < 0xC2 ∨ 0xF4 < 0xC0 + n / 0x40) := by omega
      have a3 : 0xC0 + n / 0x40 < 0xE0 := by omega
      have a4 : acceptLo (0xC0 + n / 0x40) ≤ 0x80 + n % 0x40 ∧
          0x80 + n % 0x40 ≤ acceptHi (0xC0 + n / 0x40) :=
        ⟨acceptLo_le _ _ (by omega) (by omega) (by omega),
          le_acceptHi _ _ (by omega) (by omega) (by omega)⟩
      have a5 : (0xC0 + n / 0x40) % 0x20 * 0x40 + (0x80 + n % 0x40) % 0x40 = n := by omega
      simp only [List.cons_append, List.nil_append, decodeRune, if_neg a1, if_neg a2, if_pos a3,
        if_pos a4, a5, hc, List.length_cons, List.length_nil]
    · rw [if_neg h2]
      by_cases h3 : n < 0x10000
      · rw [if_pos h3]
        have a1 : ¬ (0xE0 + n / 0x1000 < 0x80) := by omega
        have a2 : ¬ (0xE0 + n / 0x1000 < 0xC2 ∨ 0xF4 < 0xE0 + n / 0x1000) := by omega
        have a3 : ¬ (0xE0 + n / 0x1000 < 0xE0) := by omega
        have a3' : 0xE0 + n / 0x1000 < 0xF0 := by omega
        have a4 : acceptLo (0xE0 + n / 0x1000) ≤ 0x80 + n / 0x40 % 0x40 ∧
            0x80 + n / 0x40 % 0x40 ≤ acceptHi (0xE0 + n / 0x1000) ∧
            0x80 ≤ 0x80 + n % 0x40 ∧ 0x80 + n % 0x40 ≤ 0xBF :=
          ⟨acceptLo_le _ _ (by omega) (by omega) (by omega),
            le_acceptHi _ _ (by omega) (by omega) (by omega), by omega, by omega⟩
        have a5 : (0xE0 + n / 0x1000) % 0x10 * 0x1000 + (0x80 + n / 0x40 % 0x40) % 0x40 * 0x40
            + (0x80 + n % 0x40) % 0x40 = n := by omega
        simp only [List.cons_append, List.nil_append, decodeRune, if_neg a1, if_neg a2,
          if_neg a3, if_pos a3', if_pos a4, a5, hc, List.length_cons, List.length_nil]
      · rw [if_neg h3]
        have a1 : ¬ (0xF0 + n / 0x40000 < 0x80) := by omega
        have a2 : ¬ (0xF0 + n / 0x40000 < 0xC2 ∨ 0xF4 < 0xF0 + n / 0x40000) := by omega
        have a3 : ¬ (0xF0 + n / 0x40000 < 0xE0) := by omega
        have a3' : ¬ (0xF0 + n / 0x40000 < 0xF0) := by omega
        have a4 : acceptLo (0xF0 + n / 0x40000) ≤ 0x80 + n / 0x1000 % 0x40 ∧
            0x80 + n / 0x1000 % 0x40 ≤ acceptHi (0xF0 + n / 0x40000) ∧
            0x80 ≤ 0x80 + n / 0x40 % 0x40 ∧ 0x80 + n / 0x40 % 0x40 ≤ 0xBF ∧
            0x80 ≤ 0x80 + n % 0x40 ∧ 0x80 + n % 0x40 ≤ 0xBF :=
          ⟨acceptLo_le _ _ (by omega) (by omega) (by omega),
            le_acceptHi _ _ (by omega) (by omega) (by omega), by omega, by omega, by omega,
            by omega⟩
        have a5 : (0xF0 + n / 0x40000) % 0x08 * 0x40000
            + (0x80 + n / 0x1000 % 0x40) % 0x40 * 0x1000
            + (0x80 + n / 0x40 % 0x40) % 0x40 * 0x40 + (0x80 + n % 0x40) % 0x40 = n := by omega
        simp only [List.cons_append, List.nil_append, decodeRune, if_neg a1, if_neg a2,
          if_neg a3, if_neg a3', if_pos a4, a5, hc, List.length_cons, List.length_nil]

theorem decodeRunes_skip (skipped rest : ByteString) :
    decodeRunes skipped.length (skipped ++ rest) = decodeRunes 0 rest := by
  induction skipped with
  | nil => rfl
  | cons b bs ih =>
    simp only [List.length_cons, List.cons_append, decodeRunes]
    exact ih

theorem decodeRunes_encodeRune (c : Char) (rest : ByteString) :
    decodeRunes 0 (encodeRune c ++ rest) = c :: decodeRunes 0 rest := by
  have hd := decodeRune_encodeRune c rest
  have hpos := encodeRune_length_pos c
  cases he : encodeRune c with
  | nil => rw [he] at hpos; simp at hpos
  | cons b bs =>
    rw [he] at hd
    simp only [List.cons_append] at hd ⊢
    simp only [decodeRunes, hd, List.length_cons, Nat.add_sub_cancel]
    rw [decodeRunes_skip]

/-- Decoding the bytes of a text gives the text back. -/
theorem decodeRunes_utf8Encode (s : GoString) (rest : ByteString) :
    decodeRunes 0 (utf8Encode s ++ rest) = s ++ decodeRunes 0 rest := by
  induction s with
  | nil => rfl
  | cons c cs ih =>
    simp only [utf8Encode, List.flatMap_cons, List.append_assoc, List.cons_append] at ih ⊢
    rw [decodeRunes_encodeRune, ih]

/-! ## Lemmas on `sanitizeName` on byte strings -/

theorem ReplaceBytes_encodeRune (c : Char) (old new : Nat) (hold : old < 0x80)
    (hnew : new < 0x80) :
    ReplaceBytes (encodeRune c) old new
      = encodeRune (if c = Char.ofNat old then Char.ofNat new else c) := by
  have hold' := Char.toNat_ofNat_of_valid old (by omega)
  have hnew' := Char.toNat_ofNat_of_valid new (by omega)
  by_cases hc : c = Char.ofNat old
  · rw [if_pos hc]
    have h1 : c.toNat < 0x80 := by rw [hc, hold']; exact hold
    have h2 : c.toNat = old := by rw [hc, hold']
    have e1 : encodeRune c = [old] := by simp only [encodeRune, h2, hold, if_true]
    have e2 : encodeRune (Char.ofNat new) = [new] := by
      simp only [encodeRune, hnew', hnew, if_true]
    rw [e1, e2]
    simp [ReplaceBytes]
  · rw [if_neg hc]
    have hne : c.toNat ≠ old := by
      intro e
      apply hc
      rw [← e, Char.ofNat_toNat]
    have hid : ∀ b ∈ encodeRune c, (if b = old then new else b) = id b := by
      intro b hb
      rcases encodeRune_bytes c b hb with ⟨_, h⟩ | ⟨_, h, _⟩
      · rw [if_neg (by omega)]
        rfl
      · rw [if_neg (by omega)]
        rfl
    unfold ReplaceBytes
    rw [List.map_congr_left hid, List.map_id]

theorem ReplaceBytes_utf8Encode (s : GoString) (old new : Nat) (hold : old < 0x80)
    (hnew : new < 0x80) :
    ReplaceBytes (utf8Encode s) old new
      = utf8Encode (Replace s (Char.ofNat old) (Char.ofNat new)) := by
  induction s with
  | nil => rfl
  | cons c cs ih =>
    have hc := ReplaceBytes_encodeRune c old new hold hnew
    unfold ReplaceBytes at ih hc ⊢
    simp only [utf8Encode, List.flatMap_cons, List.map_append, Replace, List.map_cons] at ih ⊢
    rw [hc, ih]

theorem ToLowerBytes_eq (s : ByteString) :
    ToLowerBytes s = utf8Encode (ToLower (decodeRunes 0 s)) := by
  unfold ToLowerBytes utf8Encode ToLower
  rw [List.flatMap_map]

/-- On bytes `sanitizeName` decodes the runes, maps each with `sanitizeChar` and
encodes the result. -/
theorem sanitizeNameBytes_eq (name : ByteString) :
    sanitizeNameBytes name = utf8Encode (sanitizeName (decodeRunes 0 name)) := by
  unfold sanitizeNameBytes sanitizeName
  simp only [ToLowerBytes_eq]
  rw [ReplaceBytes_utf8Encode _ 0x5F 0x2D (by decide) (by decide),
    ReplaceBytes_utf8Encode _ 0x2F 0x2D (by decide) (by decide)]

/-- On the bytes of a text, `sanitizeNameBytes` gives the bytes of
`sanitizeName` of the text. -/
theorem sanitizeNameBytes_utf8Encode (s : GoString) :
    sanitizeNameBytes (utf8Encode s) = utf8Encode (sanitizeName s) := by
  rw [sanitizeNameBytes_eq]
  have h := decodeRunes_utf8Encode s []
  simp only [List.append_nil] at h
  have hnil : decodeRunes 0 [] = [] := rfl
  rw [h, hnil, List.append_nil]

theorem utf8Encode_append (a b : GoString) :
    utf8Encode (a ++ b) = utf8Encode a ++ utf8Encode b := by
  simp [utf8Encode, List.flatMap_append]

theorem mem_utf8Encode (s : GoString) (b : Nat) (hb : b ∈ utf8Encode s) :
    (∃ c ∈ s, c.toNat < 0x80 ∧ b = c.toNat) ∨ 0x80 ≤ b := by
  unfold utf8Encode at hb
  rw [List.mem_flatMap] at hb
  obtain ⟨c, hc, hbc⟩ := hb
  rcases encodeRune_bytes c b hbc with ⟨h1, h2⟩ | ⟨_, h, _⟩
  · exact Or.inl ⟨c, hc, h1, h2⟩
  · exact Or.inr h

/-! ## Lemmas on the key filter -/

theorem matchingObjects_mem (s3Path : S3Path) (objs : List S3Object) (key : GoString)
    (obj : S3Object) :
    obj ∈ matchingObjects s3Path objs key ↔ obj ∈ objs ∧ obj.Key = s3Path.path ++ key := by
  simp [matchingObjects, List.mem_filter]

theorem matchingObjects_length (s3Path : S3Path) (objs : List S3Object) (key : GoString) :
    (matchingObjects s3Path objs key).length
      = objs.countP (fun obj => obj.Key = s3Path.path ++ key) := by
  simp [matchingObjects, List.countP_eq_length_filter]

theorem flatMap_matching_keys (s3Path : S3Path) (objs : List S3Object) (keys : List GoString)
    (h : ∀ k ∈ keys, (matchingObjects s3Path objs k).length = 1) :
    ((keys.flatMap (fun key => matchingObjects s3Path objs key)).map (fun obj => obj.Key))
      = keys.map (fun k => s3Path.path ++ k) := by
  induction keys with
  | nil => simp
  | cons k ks ih =>
    have hk := h k (List.mem_cons_self k ks)
    have hks : ∀ k' ∈ ks, (matchingObjects s3Path objs k').length = 1 :=
      fun k' hk' => h k' (List.mem_cons_of_mem k hk')
    obtain ⟨obj, hobj⟩ := List.length_eq_one.mp hk
    have hkey : obj.Key = s3Path.path ++ k := by
      have : obj ∈ matchingObjects s3Path objs k := by rw [hobj]; exact List.mem_singleton_self obj
      exact ((matchingObjects_mem s3Path objs k obj).1 this).2
    simp only [List.flatMap_cons, List.map_append, List.map_cons, hobj, List.map_nil, ih hks,
      hkey, List.singleton_append]

/-! ## Lemmas on the rendered template -/

theorem infix_head (u r : GoString) : u <:+: u ++ r :=
  ⟨[], r, rfl⟩

theorem infix_append_left (x : GoString) {u t : GoString} (h : u <:+: t) : u <:+: x ++ t := by
  obtain ⟨b, a, e⟩ := h
  exact ⟨x ++ b, a, by simp [← e]⟩

theorem commitCommand_infix_compile (p : PodDefinition) : commitCommand p <:+: compile p := by
  unfold compile renderPaddle
  simp only [List.append_assoc]
  exact infix_append_left _ (infix_append_left _ (infix_append_left _ (infix_append_left _
    (infix_head _ _))))

theorem infix_flatMap {α : Type} (f : α → GoString) (xs : List α) (x : α) (hx : x ∈ xs) :
    f x <:+: xs.flatMap f := by
  obtain ⟨l, r, rfl⟩ := List.append_of_mem hx
  exact ⟨l.flatMap f, r.flatMap f, by simp [List.flatMap_append]⟩

theorem getCommand_infix_compile (p : PodDefinition) (input : InputReference)
    (hin : input ∈ p.Step.Inputs) : getCommand input <:+: compile p := by
  have h1 : getCommand input <:+: renderInput input := by
    unfold renderInput
    simp only [List.append_assoc]
    exact infix_append_left _ (infix_head _ _)
  have h2 := h1.trans (infix_flatMap renderInput p.Step.Inputs input hin)
  obtain ⟨b, a, e⟩ := h2
  unfold compile renderPaddle
  rw [← e]
  simp only [List.append_assoc]
  exact infix_append_left _ (infix_append_left _ (infix_append_left _ (infix_head _ _)))

theorem flatMap_renderInput_congr (xs ys : List InputReference)
    (h : xs.map (fun input => (input.Step, input.Version, input.Branch, input.Path))
      = ys.map (fun input => (input.Step, input.Version, input.Branch, input.Path))) :
    xs.flatMap renderInput = ys.flatMap renderInput := by
  induction xs generalizing ys with
  | nil =>
    cases ys with
    | nil => rfl
    | cons y ys => simp at h
  | cons x xs ih =>
    cases ys with
    | nil => simp at h
    | cons y ys =>
      simp only [List.map_cons, List.cons.injEq, Prod.mk.injEq] at h
      obtain ⟨⟨h1, h2, h3, h4⟩, hrest⟩ := h
      simp only [List.flatMap_cons, ih ys hrest, renderInput, getCommand, h1, h2, h3, h4]

/-! ## Lemmas on the bucket default expression -/

theorem matchGroup_cons (c : Char) (rest : GoString) :
    matchGroup (c :: rest) =
      if c = '\n' then none
      else
        match matchGroup rest with
        | some more => some (c :: more)
        | none => if "')".toList.isPrefixOf rest then some [c] else none := by
  rw [matchGroup]

theorem close_not_isPrefixOf (t : GoString) (h : ¬ "')".toList <:+: t) :
    "')".toList.isPrefixOf t = false := by
  rw [Bool.eq_false_iff]
  intro hp
  rw [List.isPrefixOf_iff_prefix] at hp
  exact h hp.isInfix

theorem matchGroup_none_of_no_close (t : GoString) (h : ¬ "')".toList <:+: t) :
    matchGroup t = none := by
  induction t with
  | nil => rfl
  | cons c rest ih =>
    have hrest : ¬ "')".toList <:+: rest :=
      fun hi => h (hi.trans (List.infix_cons (List.infix_refl _)))
    rw [matchGroup_cons, ih hrest, close_not_isPrefixOf rest hrest]
    by_cases hc : c = '\n'
    · rw [if_pos hc]
    · rw [if_neg hc]
      rfl

theorem matchGroup_of_closed (x post : GoString) (hx : x ≠ []) (hnl : '\n' ∉ x)
    (hpost : ¬ "')".toList <:+: post) :
    matchGroup (x ++ "')".toList ++ post) = some x := by
  induction x with
  | nil => exact absurd rfl hx
  | cons c x' ih =>
    have hc : c ≠ '\n' := fun e => hnl (by simp [e])
    have hnl' : '\n' ∉ x' := fun m => hnl (List.mem_cons_of_mem _ m)
    by_cases hx' : x' = []
    · subst hx'
      have h0 := matchGroup_none_of_no_close post hpost
      have h1 : matchGroup (')' :: post) = none := by
        rw [matchGroup_cons, h0, close_not_isPrefixOf post hpost]
        rfl
      have h2 : matchGroup ('\'' :: ')' :: post) = none := by
        rw [matchGroup_cons, h1]
        rfl
      show matchGroup (c :: ('\'' :: ')' :: post)) = some [c]
      rw [matchGroup_cons, if_neg hc, h2]
      simp
    · have := ih hx' hnl'
      show matchGroup (c :: (x' ++ "')".toList ++ post)) = some (c :: x')
      rw [matchGroup_cons, if_neg hc, this]

theorem matchGroup_sound (t x : GoString) (h : matchGroup t = some x) :
    x ≠ [] ∧ ∃ post, t = x ++ "')".toList ++ post := by
  induction t generalizing x with
  | nil => simp [matchGroup] at h
  | cons c rest ih =>
    rw [matchGroup_cons] at h
    by_cases hc : c = '\n'
    · simp [hc] at h
    · rw [if_neg hc] at h
      cases hm : matchGroup rest with
      | some more =>
        rw [hm] at h
        simp only [Option.some.injEq] at h
        obtain ⟨_, post, hpost⟩ := ih more hm
        subst h
        exact ⟨by simp, post, by simp [hpost]⟩
      | none =>
        rw [hm] at h
        have h' : (if "')".toList.isPrefixOf rest = true then some [c] else none) = some x := h
        by_cases hp : "')".toList.isPrefixOf rest = true
        · rw [if_pos hp, Option.some.injEq] at h'
          rw [List.isPrefixOf_iff_prefix] at hp
          obtain ⟨post, hpost⟩ := hp
          subst h'
          exact ⟨by simp, post, by simp [← hpost]⟩
        · rw [if_neg hp] at h'
          exact absurd h' (by simp)

theorem default_not_prefix_after (pre rest : GoString) (hne : pre ≠ [])
    (hno : ¬ "default('".toList <:+: pre) :
    ¬ "default('".toList <+: pre ++ ("default('".toList ++ rest) := by
  intro hp
  rcases List.prefix_or_prefix_of_prefix hp (List.prefix_append pre _) with h | h
  · exact hno h.isInfix
  · have hlen : pre.length ≤ 9 := h.length_le
    have hpos : 0 < pre.length := List.length_pos.mpr hne
    by_cases h9 : pre.length = 9
    · have : pre = "default('".toList := h.eq_of_length h9
      exact hno (this ▸ List.infix_refl _)
    · have hlt : pre.length < 9 := lt_of_le_of_ne hlen h9
      have htake := List.prefix_iff_eq_take.mp hp
      have hget : ("default('".toList)[pre.length]? = some 'd' := by
        conv_lhs => rw [htake]
        rw [List.getElem?_take_of_lt (by simpa using hlt),
          List.getElem?_append_right (le_refl _)]
        simp
      generalize pre.length = j at hpos hlt hget
      interval_cases j <;> simp at hget

theorem matchHere_none_of_not_prefix (s : GoString) (h : ¬ "default('".toList <+: s) :
    matchHere s = none := by
  unfold matchHere
  rw [if_neg]
  rw [List.isPrefixOf_iff_prefix]
  exact h

theorem matchHere_default (t : GoString) : matchHere ("default('".toList ++ t) = matchGroup t := by
  unfold matchHere
  rw [if_pos]
  · rw [List.drop_left]
  · rw [List.isPrefixOf_iff_prefix]
    exact List.prefix_append _ _

theorem matchHere_sound (s x : GoString) (h : matchHere s = some x) :
    ∃ t, s = "default('".toList ++ t ∧ matchGroup t = some x := by
  unfold matchHere at h
  by_cases hp : "default('".toList.isPrefixOf s = true
  · rw [if_pos hp] at h
    rw [List.isPrefixOf_iff_prefix] at hp
    obtain ⟨t, ht⟩ := hp
    subst ht
    rw [List.drop_left] at h
    exact ⟨t, rfl, h⟩
  · rw [if_neg hp] at h
    exact absurd h (by simp)

theorem FindStringSubmatch_cons (c : Char) (cs : GoString) :
    FindStringSubmatch (c :: cs) =
      match matchHere (c :: cs) with
      | some group => ["default('".toList ++ group ++ "')".toList, group]
      | none => FindStringSubmatch cs := by
  rw [FindStringSubmatch]

theorem FindStringSubmatch_skip (pre t : GoString) (hno : ¬ "default('".toList <:+: pre) :
    FindStringSubmatch (pre ++ ("default('".toList ++ t))
      = FindStringSubmatch ("default('".toList ++ t) := by
  induction pre with
  | nil => rfl
  | cons c pre' ih =>
    have hno' : ¬ "default('".toList <:+: pre' :=
      fun hi => hno (hi.trans (List.infix_cons (List.infix_refl _)))
    have hnone : matchHere (c :: pre' ++ ("default('".toList ++ t)) = none :=
      matchHere_none_of_not_prefix _ (default_not_prefix_after (c :: pre') t (by simp) hno)
    show FindStringSubmatch (c :: (pre' ++ ("default('".toList ++ t))) = _
    rw [FindStringSubmatch_cons]
    rw [show c :: (pre' ++ ("default('".toList ++ t)) = c :: pre' ++ ("default('".toList ++ t)
      from rfl, hnone]
    exact ih hno'

theorem FindStringSubmatch_default (t x : GoString) (h : matchGroup t = some x) :
    FindStringSubmatch ("default('".toList ++ t)
      = ["default('".toList ++ x ++ "')".toList, x] := by
  have hm := matchHere_default t
  rw [h] at hm
  show FindStringSubmatch ('d' :: ("efault('".toList ++ t)) = _
  rw [FindStringSubmatch_cons]
  rw [show 'd' :: ("efault('".toList ++ t) = "default('".toList ++ t from rfl, hm]

theorem FindStringSubmatch_sound (s : GoString) (h : FindStringSubmatch s ≠ []) :
    ∃ pre x post, x ≠ [] ∧ s = pre ++ "default('".toList ++ x ++ "')".toList ++ post ∧
      FindStringSubmatch s = ["default('".toList ++ x ++ "')".toList, x] := by
  induction s with
  | nil => exact absurd rfl h
  | cons c cs ih =>
    rw [FindStringSubmatch_cons] at h ⊢
    cases hm : matchHere (c :: cs) with
    | some group =>
      obtain ⟨t, ht, hg⟩ := matchHere_sound _ _ hm
      obtain ⟨hne, post, hpost⟩ := matchGroup_sound t group hg
      refine ⟨[], group, post, hne, ?_, rfl⟩
      rw [ht, hpost]
      simp
    | none =>
      rw [hm] at h
      obtain ⟨pre, x, post, hne, hs, hr⟩ := ih h
      refine ⟨c :: pre, x, post, hne, ?_, hr⟩
      rw [hs]
      simp

/-! ## Lemmas on the script of the main container -/

theorem exec_andChain_commands (fuel : Nat) (oks : List Bool) (first : Sh)
    (files : List Sentinel) (o : Outcome) (h : exec fuel first files = some o) :
    exec fuel
        (andChain first
          (oks.map (fun ok => Sh.subshell (Sh.command ok)) ++ [Sh.touch .mainPassed])) files
      = if o.control = .normal ∧ o.status = 0 then
          (if oks.all id = true then
            some { files := touchFile .mainPassed o.files, status := 0, control := .normal }
          else some { files := o.files, status := 1, control := .normal })
        else some o := by
  induction oks generalizing first o with
  | nil =>
    simp only [List.map_nil, List.nil_append, andChain, List.foldl_cons, List.foldl_nil,
      exec, h, List.all_nil, if_true]
  | cons ok oks ih =>
    have hstep : exec fuel (Sh.andThen first (Sh.subshell (Sh.command ok))) files
        = if o.control = .normal ∧ o.status = 0 then
            some { files := o.files, status := if ok then 0 else 1, control := .normal }
          else some o := by
      simp only [exec, h]
    have hchain : andChain first
          ((ok :: oks).map (fun ok => Sh.subshell (Sh.command ok)) ++ [Sh.touch .mainPassed])
        = andChain (Sh.andThen first (Sh.subshell (Sh.command ok)))
            (oks.map (fun ok => Sh.subshell (Sh.command ok)) ++ [Sh.touch .mainPassed]) := by
      simp [andChain]
    rw [hchain]
    by_cases hgood : o.control = .normal ∧ o.status = 0
    · rw [if_pos hgood] at hstep
      rw [ih _ _ hstep, if_pos hgood]
      cases ok <;> simp
    · rw [if_neg hgood] at hstep
      rw [ih _ _ hstep, if_neg hgood, if_neg hgood]

theorem exec_stepCommands (fuel : Nat) (outcomes : List Bool) (files : List Sentinel) :
    exec fuel (stepCommands outcomes) files
      = if outcomes.all id = true then
          some { files := touchFile .mainPassed files, status := 0, control := .normal }
        else some { files := files, status := 1, control := .normal } := by
  cases outcomes with
  | nil => simp [stepCommands, exec]
  | cons ok oks =>
    have hfirst : exec fuel (Sh.subshell (Sh.command ok)) files
        = some { files := files, status := if ok then 0 else 1, control := .normal } := by
      simp [exec]
    have hdef : stepCommands (ok :: oks)
        = andChain (Sh.subshell (Sh.command ok))
            (oks.map (fun ok => Sh.subshell (Sh.command ok)) ++ [Sh.touch .mainPassed]) := by
      simp [stepCommands]
    rw [hdef, exec_andChain_commands fuel oks _ files _ hfirst]
    cases ok <;> simp

theorem exec_mainScript (fuel : Nat) (outcomes : List Bool) (files : List Sentinel)
    (hfirst : Sentinel.firstStep ∈ files) :
    exec (fuel + 1) (mainScript outcomes) files
      = if outcomes.all id = true then
          some { files := touchFile .mainDone (touchFile .mainPassed files), status := 0,
                 control := .normal }
        else some { files := touchFile .mainFailed files, status := 0, control := .normal } := by
  by_cases hall : outcomes.all id = true
  · simp [mainScript, exec, execLoop, hfirst, exec_stepCommands, hall]
  · simp [mainScript, exec, execLoop, hfirst, exec_stepCommands, hall]

/-! ## Lemmas on the interleaved scripts -/

theorem Precedes.nil (x e : Event) : Precedes x e [] := by
  intro before after h
  exact absurd h (by simp)

theorem Precedes.snoc_ne {x e e' : Event} {log : List Event} (hne : e' ≠ e)
    (h : Precedes x e log) : Precedes x e (log ++ [e']) := by
  intro before after heq
  rcases List.eq_nil_or_concat after with rfl | ⟨after', a, rfl⟩
  · have h2 := List.append_inj' heq rfl
    exact absurd (List.singleton_inj.mp h2.2) hne
  · have h2 : log ++ [e'] = (before ++ e :: after') ++ [a] := by
      rw [heq]
      simp
    exact h before after' (List.append_inj' h2 rfl).1

theorem Precedes.snoc_mem {x e e' : Event} {log : List Event} (hx : x ∈ log)
    (h : Precedes x e log) : Precedes x e (log ++ [e']) := by
  intro before after heq
  rcases List.eq_nil_or_concat after with rfl | ⟨after', a, rfl⟩
  · have h2 := List.append_inj' heq rfl
    rw [← h2.1]
    exact hx
  · have h2 : log ++ [e'] = (before ++ e :: after') ++ [a] := by
      rw [heq]
      simp
    exact h before after' (List.append_inj' h2 rfl).1

theorem mem_touchFile (f g : Sentinel) (fs : List Sentinel) :
    f ∈ touchFile g fs ↔ f = g ∨ f ∈ fs := by
  unfold touchFile
  by_cases hg : g ∈ fs
  · rw [if_pos hg]
    constructor
    · exact fun h => Or.inr h
    · rintro (rfl | h)
      · exact hg
      · exact h
  · rw [if_neg hg]
    simp [or_comm]

theorem PodInvariant.initial : PodInvariant PodState.initial where
  startsRun := Precedes.nil _ _
  runs := fun _ => Precedes.nil _ _
  commit := Precedes.nil _ _
  firstStepFile := by simp [PodState.initial]
  mainRunning := by simp [PodState.initial]
  passedFile := by simp [PodState.initial]
  atCommit := by simp [PodState.initial]
  sawFailed := by simp [PodState.initial]
  committed := by simp [PodState.initial]

theorem PodInvariant.mainStep (r : CommandOutcomes) (s : PodState) (h : PodInvariant s) :
    PodInvariant (mainStep r s) := by
  unfold Paddle.mainStep
  split
  · split
    · rename_i hfile
      have hw := h.firstStepFile hfile
      exact
        { startsRun := h.startsRun.snoc_mem hw
          runs := fun i => (h.runs i).snoc_mem hw
          commit := h.commit.snoc_ne (by simp)
          firstStepFile := fun _ => by simp [hw]
          mainRunning := fun _ => by simp [hw]
          passedFile := fun hp => by simp [h.passedFile hp]
          atCommit := fun hp => by simp [h.atCommit hp]
          sawFailed := fun hp => h.sawFailed (by simpa using hp)
          committed := fun hp => h.committed (by simpa using hp) }
    · exact h
  · rename_i next hpc
    have hw := h.mainRunning (by rw [hpc]; simp)
    split
    · exact
        { startsRun := h.startsRun.snoc_mem hw
          runs := fun i => (h.runs i).snoc_mem hw
          commit := h.commit.snoc_ne (by simp)
          firstStepFile := fun _ => by simp [hw]
          mainRunning := fun _ => by simp [hw]
          passedFile := fun hp => by simp [h.passedFile hp]
          atCommit := fun hp => by simp [h.atCommit hp]
          sawFailed := fun hp => h.sawFailed (by simpa using hp)
          committed := fun hp => h.committed (by simpa using hp) }
    · exact
        { startsRun := h.startsRun.snoc_mem hw
          runs := fun i => (h.runs i).snoc_mem hw
          commit := h.commit.snoc_ne (by simp)
          firstStepFile := fun _ => by simp [hw]
          mainRunning := fun _ => by simp [hw]
          passedFile := fun hp => by simp [h.passedFile hp]
          atCommit := fun hp => by simp [h.atCommit hp]
          sawFailed := fun hp => h.sawFailed (by simpa using hp)
          committed := fun hp => h.committed (by simpa using hp) }
    · exact
        { startsRun := h.startsRun.snoc_mem hw
          runs := fun i => (h.runs i).snoc_mem hw
          commit := h.commit.snoc_ne (by simp)
          firstStepFile := fun _ => by simp [hw]
          mainRunning := fun _ => by simp [hw]
          passedFile := fun _ => by simp
          atCommit := fun _ => by simp
          sawFailed := fun hp => h.sawFailed (by simpa using hp)
          committed := fun hp => h.committed (by simpa using hp) }
  · rename_i hpc
    have hw := h.mainRunning (by rw [hpc]; simp)
    exact
      { startsRun := h.startsRun.snoc_mem hw
        runs := fun i => (h.runs i).snoc_mem hw
        commit := h.commit.snoc_ne (by simp)
        firstStepFile := fun _ => by simp [hw]
        mainRunning := fun _ => by simp [hw]
        passedFile := fun hp => by
          have : Sentinel.mainPassed ∈ s.files := by simpa [mem_touchFile] using hp
          simp [h.passedFile this]
        atCommit := fun hp => by simp [h.atCommit hp]
        sawFailed := fun hp => h.sawFailed (by simpa using hp)
        committed := fun hp => h.committed (by simpa using hp) }
  · rename_i hpc
    have hw := h.mainRunning (by rw [hpc]; simp)
    exact
      { startsRun := h.startsRun.snoc_mem hw
        runs := fun i => (h.runs i).snoc_mem hw
        commit := h.commit.snoc_ne (by simp)
        firstStepFile := fun _ => by simp [hw]
        mainRunning := fun _ => by simp [hw]
        passedFile := fun hp => by
          have : Sentinel.mainPassed ∈ s.files := by simpa [mem_touchFile] using hp
          simp [h.passedFile this]
        atCommit := fun hp => by simp [h.atCommit hp]
        sawFailed := fun hp => h.sawFailed (by simpa using hp)
        committed := fun hp => h.committed (by simpa using hp) }
  · exact h

theorem PodInvariant.of_paddle_pc (s : PodState) (pc : PaddlePc) (h : PodInvariant s)
    (hcommit : pc = .commit → Event.mainWrites .mainPassed ∈ s.log)
    (hfailed : Event.paddleSeesFailed ∈ s.log → pc = .exitedOnFailure)
    (hcommitted : Event.paddleStartsCommit ∈ s.log → pc = .exited) :
    PodInvariant { s with paddle := pc } where
  startsRun := h.startsRun
  runs := h.runs
  commit := h.commit
  firstStepFile := h.firstStepFile
  mainRunning := h.mainRunning
  passedFile := h.passedFile
  atCommit := hcommit
  sawFailed := hfailed
  committed := hcommitted

theorem PodInvariant.paddleStep (r : CommandOutcomes) (s : PodState) (h : PodInvariant s) :
    PodInvariant (paddleStep r s) := by
  have hnf : ∀ pc : PaddlePc, s.paddle = pc → pc ≠ .exitedOnFailure →
      Event.paddleSeesFailed ∉ s.log := by
    intro pc hpc hne hmem
    exact hne (hpc ▸ h.sawFailed hmem)
  have hnc : ∀ pc : PaddlePc, s.paddle = pc → pc ≠ .exited →
      Event.paddleStartsCommit ∉ s.log := by
    intro pc hpc hne hmem
    exact hne (hpc ▸ h.committed hmem)
  unfold Paddle.paddleStep
  split
  · rename_i hpc
    have h1 := hnf _ hpc (by simp)
    have h2 := hnc _ hpc (by simp)
    split
    · exact h.of_paddle_pc s _ (by simp) (fun m => absurd m h1) (fun m => absurd m h2)
    · exact h.of_paddle_pc s _ (by simp) (fun m => absurd m h1) (fun m => absurd m h2)
  · rename_i next hpc
    have h1 := hnf _ hpc (by simp)
    have h2 := hnc _ hpc (by simp)
    split
    · exact h.of_paddle_pc s _ (by simp) (fun m => absurd m h1) (fun m => absurd m h2)
    · exact h.of_paddle_pc s _ (by simp) (fun m => absurd m h1) (fun m => absurd m h2)
    · exact
        { startsRun := h.startsRun.snoc_ne (by simp)
          runs := fun i => (h.runs i).snoc_ne (by simp)
          commit := h.commit.snoc_ne (by simp)
          firstStepFile := fun _ => by simp
          mainRunning := fun _ => by simp
          passedFile := fun hp => by
            have : Sentinel.mainPassed ∈ s.files := by simpa [mem_touchFile] using hp
            simp [h.passedFile this]
          atCommit := fun hp => by simp at hp
          sawFailed := fun hp => absurd (by simpa using hp) h1
          committed := fun hp => absurd (by simpa using hp) h2 }
  · rename_i hpc
    have h1 := hnf _ hpc (by simp)
    have h2 := hnc _ hpc (by simp)
    split
    · exact h.of_paddle_pc s _ (by simp) (fun m => absurd m h1) (fun m => absurd m h2)
    · exact h.of_paddle_pc s _ (by simp) (fun m => absurd m h1) (fun m => absurd m h2)
  · rename_i hpc
    have h1 := hnf _ hpc (by simp)
    have h2 := hnc _ hpc (by simp)
    split
    · exact
        { startsRun := h.startsRun.snoc_ne (by simp)
          runs := fun i => (h.runs i).snoc_ne (by simp)
          commit := h.commit.snoc_ne (by simp)
          firstStepFile := fun hp => by simp [h.firstStepFile hp]
          mainRunning := fun hp => by simp [h.mainRunning hp]
          passedFile := fun hp => by simp [h.passedFile hp]
          atCommit := fun hp => by simp at hp
          sawFailed := fun _ => rfl
          committed := fun hp => absurd (by simpa using hp) h2 }
    · exact h.of_paddle_pc s _ (by simp) (fun m => absurd m h1) (fun m => absurd m h2)
  · rename_i hpc
    have h1 := hnf _ hpc (by simp)
    have h2 := hnc _ hpc (by simp)
    split
    · rename_i hfile
      have hw := h.passedFile hfile
      exact
        { startsRun := h.startsRun.snoc_ne (by simp)
          runs := fun i => (h.runs i).snoc_ne (by simp)
          commit := h.commit.snoc_ne (by simp)
          firstStepFile := fun hp => by simp [h.firstStepFile hp]
          mainRunning := fun hp => by simp [h.mainRunning hp]
          passedFile := fun _ => by simp [hw]
          atCommit := fun _ => by simp [hw]
          sawFailed := fun hp => absurd (by simpa using hp) h1
          committed := fun hp => absurd (by simpa using hp) h2 }
    · exact h.of_paddle_pc s _ (by simp) (fun m => absurd m h1) (fun m => absurd m h2)
  · rename_i hpc
    have h1 := hnf _ hpc (by simp)
    have hw := h.atCommit hpc
    exact
      { startsRun := h.startsRun.snoc_ne (by simp)
        runs := fun i => (h.runs i).snoc_ne (by simp)
        commit := h.commit.snoc_mem hw
        firstStepFile := fun hp => by simp [h.firstStepFile hp]
        mainRunning := fun hp => by simp [h.mainRunning hp]
        passedFile := fun hp => by simp [h.passedFile hp]
        atCommit := fun hp => by simp at hp
        sawFailed := fun hp => absurd (by simpa using hp) h1
        committed := fun _ => rfl }
  · exact h
  · exact h
  · exact h

theorem PodInvariant.foldl (r : CommandOutcomes) (schedule : List Container) (s : PodState)
    (h : PodInvariant s) : PodInvariant (schedule.foldl (podStep r) s) := by
  induction schedule generalizing s with
  | nil => exact h
  | cons who rest ih =>
    apply ih
    cases who
    · exact h.mainStep r s
    · exact h.paddleStep r s

theorem PodInvariant.runSchedule (r : CommandOutcomes) (schedule : List Container) :
    PodInvariant (runSchedule r schedule) :=
  PodInvariant.foldl r schedule _ PodInvariant.initial

/-! ## The main container's machine and its script agree -/

theorem mainStep_finished (r : CommandOutcomes) (s : PodState) (h : s.main = .finished)
    (k : Nat) : (mainStep r)^[k] s = s := by
  induction k with
  | zero => rfl
  | succ k ih =>
    rw [Function.iterate_succ_apply]
    have : mainStep r s = s := by
      unfold mainStep
      rw [h]
    rw [this, ih]

theorem mainStep_from_failing (r : CommandOutcomes) (s : PodState) (h : s.main = .failing)
    (k : Nat) (hk : 1 ≤ k) :
    ((mainStep r)^[k] s).main = .finished ∧
    ((mainStep r)^[k] s).files = touchFile .mainFailed s.files := by
  obtain ⟨k', rfl⟩ := Nat.exists_eq_add_of_le' hk
  rw [Function.iterate_succ_apply]
  have hs : mainStep r s
      = { s with main := .finished, files := touchFile .mainFailed s.files,
                 log := s.log ++ [.mainWrites .mainFailed] } := by
    unfold mainStep
    rw [h]
  rw [hs, mainStep_finished r _ rfl]
  exact ⟨rfl, rfl⟩

theorem mainStep_from_passed (r : CommandOutcomes) (s : PodState) (h : s.main = .passed)
    (k : Nat) (hk : 1 ≤ k) :
    ((mainStep r)^[k] s).main = .finished ∧
    ((mainStep r)^[k] s).files = touchFile .mainDone s.files := by
  obtain ⟨k', rfl⟩ := Nat.exists_eq_add_of_le' hk
  rw [Function.iterate_succ_apply]
  have hs : mainStep r s
      = { s with main := .finished, files := touchFile .mainDone s.files,
                 log := s.log ++ [.mainWrites .mainDone] } := by
    unfold mainStep
    rw [h]
  rw [hs, mainStep_finished r _ rfl]
  exact ⟨rfl, rfl⟩

theorem mainStep_from_run (r : CommandOutcomes) (k : Nat) :
    ∀ (i : Nat) (s : PodState), s.main = .run i → i ≤ r.commands.length →
      r.commands.length + 2 ≤ i + k →
      ((mainStep r)^[k] s).main = .finished ∧
      ((mainStep r)^[k] s).files =
        if (r.commands.drop i).all id = true then
          touchFile .mainDone (touchFile .mainPassed s.files)
        else touchFile .mainFailed s.files := by
  induction k with
  | zero =>
    intro i s _ hi hk
    omega
  | succ k ih =>
    intro i s hpc hi hk
    rw [Function.iterate_succ_apply]
    cases hget : r.commands[i]? with
    | none =>
      have hlen : r.commands.length ≤ i := List.getElem?_eq_none_iff.mp hget
      have hs : mainStep r s
          = { s with main := .passed, files := touchFile .mainPassed s.files,
                     log := s.log ++ [.mainWrites .mainPassed] } := by
        unfold mainStep
        rw [hpc]
        simp only [hget]
      have hdrop : r.commands.drop i = [] := List.drop_eq_nil_of_le hlen
      have h := mainStep_from_passed r _ (show (mainStep r s).main = .passed by rw [hs]) k
        (by omega)
      rw [hdrop]
      rw [hs] at h ⊢
      simpa using h
    | some ok =>
      have hlt : i < r.commands.length := by
        by_contra hge
        rw [List.getElem?_eq_none_iff.mpr (Nat.le_of_not_lt hge)] at hget
        exact absurd hget (by simp)
      have hdrop : r.commands.drop i = ok :: r.commands.drop (i + 1) := by
        rw [List.drop_eq_getElem_cons hlt]
        rw [List.getElem?_eq_getElem hlt, Option.some.injEq] at hget
        rw [hget]
      cases ok with
      | true =>
        have hs : mainStep r s
            = { s with main := .run (i + 1), log := s.log ++ [.mainRuns i] } := by
          unfold mainStep
          rw [hpc]
          simp only [hget]
        have h := ih (i + 1) _ (show (mainStep r s).main = .run (i + 1) by rw [hs])
          (by omega) (by omega)
        rw [hdrop]
        rw [hs] at h ⊢
        simpa using h
      | false =>
        have hs : mainStep r s
            = { s with main := .failing, log := s.log ++ [.mainRuns i] } := by
          unfold mainStep
          rw [hpc]
          simp only [hget]
        have h := mainStep_from_failing r _ (show (mainStep r s).main = .failing by rw [hs]) k
          (by omega)
        rw [hdrop]
        rw [hs] at h ⊢
        simpa using h

/-- The machine of the main container, run alone on a volume that holds
`first-step.txt`, ends with the files that `exec` gives for `mainScript`. -/
theorem mainStep_agrees_with_exec (r : CommandOutcomes) (s : PodState)
    (hpc : s.main = .waitForInput) (hfirst : Sentinel.firstStep ∈ s.files) (k : Nat)
    (hk : r.commands.length + 3 ≤ k) :
    ((mainStep r)^[k] s).main = .finished ∧
    (exec 1 (mainScript r.commands) s.files).map (fun o => o.files)
      = some ((mainStep r)^[k] s).files := by
  obtain ⟨k', rfl⟩ := Nat.exists_eq_add_of_le' (show 1 ≤ k by omega)
  rw [Function.iterate_succ_apply]
  have hs : mainStep r s = { s with main := .run 0, log := s.log ++ [.mainStartsRun] } := by
    unfold mainStep
    rw [hpc]
    simp only [hfirst, if_true]
  have h := mainStep_from_run r k' 0 _ (show (mainStep r s).main = .run 0 by rw [hs])
    (Nat.zero_le _) (by omega)
  rw [hs] at h ⊢
  refine ⟨h.1, ?_⟩
  rw [h.2, exec_mainScript 0 r.commands s.files hfirst]
  simp only [List.drop_zero]
  split <;> rfl

/-! ## Claims -/

/-- C1: for a non-empty tag `t`, `OverrideTag(t)` sets the image to the part of
the old image before its first colon (the whole old image when it has none),
then `:`, then `t`; so `repo:old` with a colon-free `repo` becomes `repo:t`,
and an image with further colon-delimited segments such as `a:b:c` keeps only
its first segment `a`. -/
theorem OverrideTag_image (p : PipelineDefinitionStep) (t : GoString) (ht : t ≠ []) :
    (OverrideTag p t).Image = p.Image.takeWhile (fun c => c != ':') ++ [':'] ++ t ∧
    (':' ∉ p.Image → (OverrideTag p t).Image = p.Image ++ [':'] ++ t) ∧
    (∀ repo old : GoString, ':' ∉ repo → p.Image = repo ++ [':'] ++ old →
      (OverrideTag p t).Image = repo ++ [':'] ++ t) ∧
    (∀ a b c : GoString, ':' ∉ a → p.Image = a ++ [':'] ++ b ++ [':'] ++ c →
      (OverrideTag p t).Image = a ++ [':'] ++ t) := by
  have key := OverrideTag_image_eq p t ht
  refine ⟨by simp [key], ?_, ?_, ?_⟩
  · intro hno
    rw [key]
    have : p.Image.takeWhile (fun c => c != ':') = p.Image := by
      rw [List.takeWhile_eq_self_iff]
      intro c hc
      have : c ≠ ':' := fun e => hno (e ▸ hc)
      simp [this]
    simp [this]
  · intro repo old hrepo himg
    have e : repo ++ [':'] ++ old = repo ++ ':' :: old := by simp
    rw [key, himg, e, takeWhile_ne_append_sep repo old ':' hrepo]
    simp
  · intro a b c ha himg
    have e : a ++ [':'] ++ b ++ [':'] ++ c = a ++ ':' :: (b ++ [':'] ++ c) := by simp
    rw [key, himg, e, takeWhile_ne_append_sep a _ ':' ha]
    simp

/-- C1 at `sampleStep` (image `a:b:c`) and tag `v2`: the image becomes `a:v2`. -/
theorem OverrideTag_image_witness :
    "v2".toList ≠ [] ∧ (OverrideTag sampleStep "v2".toList).Image = "a:v2".toList :=
  ⟨by decide, by
    have h := (OverrideTag_image sampleStep "v2".toList (by decide)).2.2.2
      "a".toList "b".toList "c".toList (by decide) (by decide)
    simpa using h⟩

/-- C2, as stated, fails at the empty version: `OverrideVersion("", true)` on
`sampleStep` leaves the version `v1` and the inputs' versions `v0`, `v7`. -/
theorem OverrideVersion_cascade_empty_counterexample :
    (OverrideVersion sampleStep [] true).Version = "v1".toList ∧
    ¬ ((OverrideVersion sampleStep [] true).Version = [] ∧
        ∀ input ∈ (OverrideVersion sampleStep [] true).Inputs, input.Version = []) := by
  decide

/-- C2 (amended): for a non-empty version `v`, after `OverrideVersion(v, true)`
the step's version is `v` and the version of every input is `v`. -/
theorem OverrideVersion_cascade (p : PipelineDefinitionStep) (v : GoString) (hv : v ≠ []) :
    (OverrideVersion p v true).Version = v ∧
    ∀ input ∈ (OverrideVersion p v true).Inputs, input.Version = v := by
  constructor
  · simp [OverrideVersion, hv]
  · intro input hin
    simp only [OverrideVersion, hv, ne_eq, not_false_eq_true, if_true, List.mem_map] at hin
    obtain ⟨i, _, rfl⟩ := hin
    rfl

/-- C2 (amended) at `sampleStep` and version `v9`. -/
theorem OverrideVersion_cascade_witness :
    "v9".toList ≠ [] ∧
    (OverrideVersion sampleStep "v9".toList true).Version = "v9".toList ∧
    ∀ input ∈ (OverrideVersion sampleStep "v9".toList true).Inputs,
      input.Version = "v9".toList :=
  ⟨by decide, OverrideVersion_cascade sampleStep "v9".toList (by decide)⟩

/-- C3: with `cascade = false`, `OverrideVersion(x, false)` and
`OverrideBranch(x, false)` leave the step's `Inputs` sequence as it was, for
every `x`; and for non-empty `x`, `OverrideVersion(x, false)` still sets the
step's own version to `x`. -/
theorem Override_no_cascade_inputs (p : PipelineDefinitionStep) (x : GoString) :
    (OverrideVersion p x false).Inputs = p.Inputs ∧
    (OverrideBranch p x false).Inputs = p.Inputs ∧
    (x ≠ [] → (OverrideVersion p x false).Version = x) := by
  by_cases hx : x = []
  · simp [OverrideVersion, OverrideBranch, hx]
  · simp [OverrideVersion, OverrideBranch, hx]

/-- C3 at `sampleStep` and `x = v9`. -/
theorem Override_no_cascade_inputs_witness :
    "v9".toList ≠ [] ∧
    (OverrideVersion sampleStep "v9".toList false).Inputs = sampleStep.Inputs ∧
    (OverrideBranch sampleStep "v9".toList false).Inputs = sampleStep.Inputs ∧
    (OverrideVersion sampleStep "v9".toList false).Version = "v9".toList :=
  have h := Override_no_cascade_inputs sampleStep "v9".toList
  ⟨by decide, h.1, h.2.1, h.2.2 (by decide)⟩

/-- C4: with the empty string as value, `OverrideTag`, `OverrideVersion` and
`OverrideBranch` (either cascade flag) return the step as it was, every field
included. -/
theorem Override_empty_noop (p : PipelineDefinitionStep) (cascade : Bool) :
    OverrideTag p [] = p ∧ OverrideVersion p [] cascade = p ∧
    OverrideBranch p [] cascade = p := by
  simp [OverrideTag, OverrideVersion, OverrideBranch]

/-- C5: for a non-empty branch `b`, `OverrideBranch(b, cascade)` sets the step's
branch to `b`; with `cascade = true` every input's branch is `b`; the step's
version and every input's version are as before; and the operation is
`OverrideVersion` with the roles of version and branch exchanged. -/
theorem OverrideBranch_spec (p : PipelineDefinitionStep) (b : GoString) (cascade : Bool)
    (hb : b ≠ []) :
    (OverrideBranch p b cascade).Branch = b ∧
    (cascade = true → ∀ input ∈ (OverrideBranch p b cascade).Inputs, input.Branch = b) ∧
    (OverrideBranch p b cascade).Version = p.Version ∧
    (OverrideBranch p b cascade).Inputs.map (fun input => input.Version)
      = p.Inputs.map (fun input => input.Version) ∧
    OverrideBranch p b cascade
      = swapVersionBranch (OverrideVersion (swapVersionBranch p) b cascade) := by
  cases cascade
  · refine ⟨?_, ?_, ?_, ?_, ?_⟩
    · simp [OverrideBranch, hb]
    · simp
    · simp [OverrideBranch, hb]
    · simp [OverrideBranch, hb]
    · simp [OverrideBranch, OverrideVersion, hb, swapVersionBranch, Function.comp_def,
        swapInputVersionBranch]
  · refine ⟨?_, ?_, ?_, ?_, ?_⟩
    · simp [OverrideBranch, hb]
    · intro _ input hin
      simp only [OverrideBranch, hb, ne_eq, not_false_eq_true, if_true, List.mem_map] at hin
      obtain ⟨i, _, rfl⟩ := hin
      rfl
    · simp [OverrideBranch, hb]
    · simp [OverrideBranch, hb, Function.comp_def]
    · simp [OverrideBranch, OverrideVersion, hb, swapVersionBranch, Function.comp_def,
        swapInputVersionBranch]

/-- C5 at `sampleStep`, branch `rel` and `cascade = true`. -/
theorem OverrideBranch_spec_witness :
    "rel".toList ≠ [] ∧
    (OverrideBranch sampleStep "rel".toList true).Branch = "rel".toList ∧
    (∀ input ∈ (OverrideBranch sampleStep "rel".toList true).Inputs,
      input.Branch = "rel".toList) ∧
    (OverrideBranch sampleStep "rel".toList true).Version = sampleStep.Version :=
  have h := OverrideBranch_spec sampleStep "rel".toList true (by decide)
  ⟨by decide, h.1, h.2.1 rfl, h.2.2.1⟩

/-- C6: `OverrideTag`, `OverrideVersion` and `OverrideBranch` are idempotent:
applied twice with the same value (any value, any image, either cascade flag)
they give the step that one application gives. -/
theorem Override_idempotent (p : PipelineDefinitionStep) (x : GoString) (c : Bool) :
    OverrideTag (OverrideTag p x) x = OverrideTag p x ∧
    OverrideVersion (OverrideVersion p x c) x c = OverrideVersion p x c ∧
    OverrideBranch (OverrideBranch p x c) x c = OverrideBranch p x c :=
  ⟨OverrideTag_twice p x, OverrideVersion_twice p x c, OverrideBranch_twice p x c⟩

/-- C7, as stated, fails for an upper-case letter that has no lower-case form:
`sanitizeName` returns the letter `U+2102` (double-struck capital C, bytes
`E2 84 82`) as it is, and `unicode.IsUpper` holds of it. -/
theorem sanitizeName_upper_counterexample :
    unicodeIsUpper (Char.ofNat 0x2102) = true ∧
    sanitizeName [Char.ofNat 0x2102] = [Char.ofNat 0x2102] ∧
    sanitizeNameBytes [0xE2, 0x84, 0x82] = [0xE2, 0x84, 0x82] ∧
    ¬ (∀ c ∈ sanitizeName [Char.ofNat 0x2102], unicodeIsUpper c = false) := by
  decide

/-- C7 (amended): for every input, `sanitizeName` returns a string with no `_`, no
`/`, no ASCII upper-case letter and no letter that has a lower-case form other
than itself; this holds on the text and, byte by byte, on every byte string
(`0x5F` is `_`, `0x2F` is `/`, `0x41`..`0x5A` are `A`..`Z`). -/
theorem sanitizeName_clean (name : GoString) (bytes : ByteString) :
    ('_' ∉ sanitizeName name ∧ '/' ∉ sanitizeName name ∧
      ∀ c ∈ sanitizeName name, c.isUpper = false ∧ unicodeToLower c = c) ∧
    (∀ b ∈ sanitizeNameBytes bytes, b ≠ 0x5F ∧ b ≠ 0x2F ∧ ¬ (0x41 ≤ b ∧ b ≤ 0x5A)) ∧
    (∀ c ∈ decodeRunes 0 (sanitizeNameBytes bytes),
      c ≠ '_' ∧ c ≠ '/' ∧ c.isUpper = false ∧ unicodeToLower c = c) := by
  have htext : ∀ text : GoString, ∀ c ∈ sanitizeName text,
      c ≠ '_' ∧ c ≠ '/' ∧ c.isUpper = false ∧ unicodeToLower c = c := by
    intro text c hc
    rw [sanitizeName_eq_map] at hc
    obtain ⟨c', _, rfl⟩ := List.mem_map.mp hc
    have h := sanitizeChar_facts c'
    exact ⟨h.1, h.2.1, h.2.2.1, h.2.2.2.1⟩
  have hdecode : decodeRunes 0 (sanitizeNameBytes bytes)
      = sanitizeName (decodeRunes 0 bytes) := by
    rw [sanitizeNameBytes_eq]
    have h := decodeRunes_utf8Encode (sanitizeName (decodeRunes 0 bytes)) []
    simp only [List.append_nil] at h
    rw [h]
    exact List.append_nil _
  refine ⟨⟨?_, ?_, ?_⟩, ?_, ?_⟩
  · exact fun h => (htext name _ h).1 rfl
  · exact fun h => (htext name _ h).2.1 rfl
  · exact fun c hc => ⟨(htext name c hc).2.2.1, (htext name c hc).2.2.2⟩
  · intro b hb
    rw [sanitizeNameBytes_eq] at hb
    rcases mem_utf8Encode _ b hb with ⟨c, hc, _, hbc⟩ | h80
    · have h := htext _ c hc
      have hof := Char.ofNat_toNat c
      refine ⟨?_, ?_, ?_⟩
      · intro e
        apply h.1
        rw [← hof, ← hbc, e]
      · intro e
        apply h.2.1
        rw [← hof, ← hbc, e]
      · intro hrange
        have hup : c.isUpper = true := by
          simp only [Char.isUpper, Bool.and_eq_true, decide_eq_true_eq]
          constructor
          · show (65 : UInt32).toNat ≤ c.val.toNat
            have : c.val.toNat = b := hbc.symm
            rw [this]
            exact hrange.1
          · show c.val.toNat ≤ (90 : UInt32).toNat
            have : c.val.toNat = b := hbc.symm
            rw [this]
            exact hrange.2
        rw [h.2.2.1] at hup
        exact absurd hup (by decide)
    · omega
  · intro c hc
    rw [hdecode] at hc
    exact htext _ c hc

/-- C8: `sanitizeName` is idempotent, on the text and on every byte string. -/
theorem sanitizeName_idempotent (x : GoString) (bytes : ByteString) :
    sanitizeName (sanitizeName x) = sanitizeName x ∧
    sanitizeNameBytes (sanitizeNameBytes bytes) = sanitizeNameBytes bytes := by
  have htext : ∀ text : GoString, sanitizeName (sanitizeName text) = sanitizeName text := by
    intro text
    rw [sanitizeName_eq_map, sanitizeName_eq_map, List.map_map]
    apply List.map_congr_left
    intro c _
    rw [Function.comp_apply]
    exact (sanitizeChar_facts c).2.2.2.2
  refine ⟨htext x, ?_⟩
  rw [sanitizeNameBytes_eq bytes, sanitizeNameBytes_utf8Encode, htext]

/-- C9: `NewPodDefinition(d, s)` has pod name
`sanitizeName(d.Pipeline) - sanitizeName(s.Step) - sanitizeName(s.Branch)`,
the namespace and bucket of `d`, the sanitized step, branch and version of `s`
as `StepName`, `BranchName` and `StepVersion`, the step `s` itself as payload
and an empty secrets list. -/
theorem NewPodDefinition_spec (d : PipelineDefinition) (s : PipelineDefinitionStep) :
    (NewPodDefinition d s).PodName
      = sanitizeName d.Pipeline ++ "-".toList ++ sanitizeName s.Step ++ "-".toList
          ++ sanitizeName s.Branch ∧
    (NewPodDefinition d s).Namespace = d.Namespace ∧
    (NewPodDefinition d s).Bucket = d.Bucket ∧
    (NewPodDefinition d s).StepName = sanitizeName s.Step ∧
    (NewPodDefinition d s).BranchName = sanitizeName s.Branch ∧
    (NewPodDefinition d s).StepVersion = sanitizeName s.Version ∧
    (NewPodDefinition d s).Step = s ∧
    (NewPodDefinition d s).Secrets = [] :=
  ⟨rfl, rfl, rfl, rfl, rfl, rfl, rfl, rfl⟩

/-- C10: when some requested key `k` (so the requested list is non-empty) has no
listed object whose key equals `prefix + k`, `filterObjects` returns an error
and an empty result, whatever the other requested keys match: never a partial
list. -/
theorem filterObjects_missing_key (s3Path : S3Path) (objs : List S3Object)
    (keys : List GoString)
    (hmiss : ∃ k ∈ keys, ∀ obj ∈ objs, obj.Key ≠ s3Path.path ++ k) :
    (filterObjects s3Path objs keys).2.isSome = true ∧
    (filterObjects s3Path objs keys).1 = [] := by
  obtain ⟨k, hk, hno⟩ := hmiss
  have hkeys : keys ≠ [] := List.ne_nil_of_mem hk
  have hmatch : matchingObjects s3Path objs k = [] := by
    unfold matchingObjects
    rw [List.filter_eq_nil_iff]
    intro obj hobj
    simpa using hno obj hobj
  have hun : keys.filter (fun key => (matchingObjects s3Path objs key).length ≠ 1) ≠ [] := by
    apply List.ne_nil_of_mem (a := k)
    rw [List.mem_filter]
    exact ⟨hk, by simp [hmatch]⟩
  simp only [filterObjects, hkeys, if_false, hun]
  simp

/-- C10 on the listing `path/f1.csv`, prefix `path/` and requested keys `f2.csv`,
`f3.csv`: an error and no object. -/
theorem filterObjects_missing_key_witness :
    (filterObjects { bucket := "bucket".toList, path := "path/".toList }
      [{ Key := "path/f1.csv".toList, Size := 1 }]
      ["f2.csv".toList, "f3.csv".toList]).2.isSome = true ∧
    (filterObjects { bucket := "bucket".toList, path := "path/".toList }
      [{ Key := "path/f1.csv".toList, Size := 1 }]
      ["f2.csv".toList, "f3.csv".toList]).1 = [] :=
  filterObjects_missing_key { bucket := "bucket".toList, path := "path/".toList }
    [{ Key := "path/f1.csv".toList, Size := 1 }]
    ["f2.csv".toList, "f3.csv".toList]
    ⟨"f2.csv".toList, by decide, by decide⟩

/-- C11: with no requested key, `filterObjects` returns no error and exactly the
listed objects whose key starts with the path prefix, in listing order; when
every listed object has the prefix the result is the whole listing (N in, N
out). -/
theorem filterObjects_no_keys (s3Path : S3Path) (objs : List S3Object) :
    (filterObjects s3Path objs []).2 = none ∧
    (∀ obj, obj ∈ (filterObjects s3Path objs []).1 ↔
      obj ∈ objs ∧ ∃ rest, obj.Key = s3Path.path ++ rest) ∧
    (filterObjects s3Path objs []).1.Sublist objs ∧
    (∀ obj, (∃ rest, obj.Key = s3Path.path ++ rest) →
      (filterObjects s3Path objs []).1.count obj = objs.count obj) ∧
    ((∀ obj ∈ objs, ∃ rest, obj.Key = s3Path.path ++ rest) →
      (filterObjects s3Path objs []).1 = objs ∧
      (filterObjects s3Path objs []).1.length = objs.length) := by
  have hpre : ∀ obj : S3Object, s3Path.path.isPrefixOf obj.Key = true ↔
      ∃ rest, obj.Key = s3Path.path ++ rest := by
    intro obj
    rw [List.isPrefixOf_iff_prefix]
    constructor
    · rintro ⟨rest, h⟩
      exact ⟨rest, h.symm⟩
    · rintro ⟨rest, h⟩
      exact ⟨rest, h.symm⟩
  have hres : (filterObjects s3Path objs []).1
      = objs.filter (fun obj => s3Path.path.isPrefixOf obj.Key) := by
    simp [filterObjects]
  refine ⟨by simp [filterObjects], ?_, ?_, ?_, ?_⟩
  · intro obj
    rw [hres, List.mem_filter, hpre]
  · rw [hres]
    exact List.filter_sublist objs
  · intro obj h
    rw [hres]
    exact List.count_filter ((hpre obj).2 h)
  · intro hall
    have : (filterObjects s3Path objs []).1 = objs := by
      rw [hres, List.filter_eq_self]
      intro obj hobj
      exact (hpre obj).2 (hall obj hobj)
    exact ⟨this, by rw [this]⟩

/-- C11 on the listing `path/file.csv` with prefix `path/` and no requested key:
the one listed object is returned. -/
theorem filterObjects_no_keys_witness :
    (∀ obj ∈ [({ Key := "path/file.csv".toList, Size := 1 } : S3Object)],
      ∃ rest, obj.Key = "path/".toList ++ rest) ∧
    (filterObjects { bucket := "bucket".toList, path := "path/".toList }
      [{ Key := "path/file.csv".toList, Size := 1 }] []).1.length = 1 :=
  have hall : ∀ obj ∈ [({ Key := "path/file.csv".toList, Size := 1 } : S3Object)],
      ∃ rest, obj.Key = "path/".toList ++ rest := by
    intro obj hobj
    rw [List.mem_singleton] at hobj
    exact ⟨"file.csv".toList, by rw [hobj]; rfl⟩
  ⟨hall, ((filterObjects_no_keys { bucket := "bucket".toList, path := "path/".toList }
      [{ Key := "path/file.csv".toList, Size := 1 }]).2.2.2.2 hall).2⟩

/-- C12: for a non-empty list of distinct requested keys, each with exactly one
listed object whose key equals `prefix + k`, `filterObjects` returns no error
and one listed object per requested key, the one whose key is `prefix + k`
(so as many objects as requested keys); an object is selected exactly when it
is listed and its key equals `prefix + k` for a requested `k`, so a listed
object whose key differs from every `prefix + k` is not selected. -/
theorem filterObjects_all_keys (s3Path : S3Path) (objs : List S3Object)
    (keys : List GoString) (hne : keys ≠ []) (_hdistinct : keys.Nodup)
    (hone : ∀ k ∈ keys, objs.countP (fun obj => obj.Key = s3Path.path ++ k) = 1) :
    (filterObjects s3Path objs keys).2 = none ∧
    (filterObjects s3Path objs keys).1.length = keys.length ∧
    (filterObjects s3Path objs keys).1.map (fun obj => obj.Key)
      = keys.map (fun k => s3Path.path ++ k) ∧
    (∀ obj, obj ∈ (filterObjects s3Path objs keys).1 ↔
      obj ∈ objs ∧ ∃ k ∈ keys, obj.Key = s3Path.path ++ k) ∧
    (∀ obj ∈ objs, (∀ k ∈ keys, obj.Key ≠ s3Path.path ++ k) →
      obj ∉ (filterObjects s3Path objs keys).1) := by
  have hlen : ∀ k ∈ keys, (matchingObjects s3Path objs k).length = 1 := by
    intro k hk
    rw [matchingObjects_length]
    exact hone k hk
  have hun : keys.filter (fun key => (matchingObjects s3Path objs key).length ≠ 1) = [] := by
    rw [List.filter_eq_nil_iff]
    intro k hk
    simp [hlen k hk]
  have hres : filterObjects s3Path objs keys
      = (keys.flatMap (fun key => matchingObjects s3Path objs key), none) := by
    simp only [filterObjects, hne, if_false, hun, if_true]
  have hmap := flatMap_matching_keys s3Path objs keys hlen
  have hmem : ∀ obj, obj ∈ (filterObjects s3Path objs keys).1 ↔
      obj ∈ objs ∧ ∃ k ∈ keys, obj.Key = s3Path.path ++ k := by
    intro obj
    rw [hres]
    simp only [List.mem_flatMap, matchingObjects_mem]
    constructor
    · rintro ⟨k, hk, hobj, hkey⟩
      exact ⟨hobj, k, hk, hkey⟩
    · rintro ⟨hobj, k, hk, hkey⟩
      exact ⟨k, hk, hobj, hkey⟩
  refine ⟨by rw [hres], ?_, by rw [hres]; exact hmap, hmem, ?_⟩
  · have := congrArg List.length hmap
    rw [hres]
    simpa using this
  · intro obj _ hno hsel
    obtain ⟨_, k, hk, hkey⟩ := (hmem obj).1 hsel
    exact hno k hk hkey

/-- C12 on the listing `path/file1.csv`, `path/file2.csv`, `path/folder/file3.csv`
with prefix `path/` and requested keys `file1.csv`, `file2.csv`,
`folder/file3.csv`: no error and three objects. -/
theorem filterObjects_all_keys_witness :
    (filterObjects { bucket := "bucket".toList, path := "path/".toList }
      [{ Key := "path/file1.csv".toList, Size := 1 },
       { Key := "path/file2.csv".toList, Size := 2 },
       { Key := "path/folder/file3.csv".toList, Size := 3 }]
      ["file1.csv".toList, "file2.csv".toList, "folder/file3.csv".toList]).2 = none ∧
    (filterObjects { bucket := "bucket".toList, path := "path/".toList }
      [{ Key := "path/file1.csv".toList, Size := 1 },
       { Key := "path/file2.csv".toList, Size := 2 },
       { Key := "path/folder/file3.csv".toList, Size := 3 }]
      ["file1.csv".toList, "file2.csv".toList, "folder/file3.csv".toList]).1.length = 3 :=
  have h := filterObjects_all_keys { bucket := "bucket".toList, path := "path/".toList }
    [{ Key := "path/file1.csv".toList, Size := 1 },
     { Key := "path/file2.csv".toList, Size := 2 },
     { Key := "path/folder/file3.csv".toList, Size := 3 }]
    ["file1.csv".toList, "file2.csv".toList, "folder/file3.csv".toList]
    (by decide) (by decide) (by decide)
  ⟨h.1, h.2.1⟩

/-- C18: `OverrideVersion` changes version fields only: the step's `Step`,
`Branch`, `Image`, `Commands` and `Resources` are as before, the inputs keep
their number and order, and every input keeps its `Step`, `Branch`, `Path` and
`Bucket`; `OverrideTag` changes no field other than `Image`. -/
theorem Override_frame (p : PipelineDefinitionStep) (v t : GoString) (cascade : Bool) :
    (OverrideVersion p v cascade).Step = p.Step ∧
    (OverrideVersion p v cascade).Branch = p.Branch ∧
    (OverrideVersion p v cascade).Image = p.Image ∧
    (OverrideVersion p v cascade).Commands = p.Commands ∧
    (OverrideVersion p v cascade).Resources = p.Resources ∧
    (OverrideVersion p v cascade).Inputs.length = p.Inputs.length ∧
    (OverrideVersion p v cascade).Inputs.map
        (fun input => (input.Step, input.Branch, input.Path, input.Bucket))
      = p.Inputs.map (fun input => (input.Step, input.Branch, input.Path, input.Bucket)) ∧
    (OverrideTag p t).Step = p.Step ∧
    (OverrideTag p t).Version = p.Version ∧
    (OverrideTag p t).Branch = p.Branch ∧
    (OverrideTag p t).Inputs = p.Inputs ∧
    (OverrideTag p t).Commands = p.Commands ∧
    (OverrideTag p t).Resources = p.Resources := by
  have hv : (OverrideVersion p v cascade).Step = p.Step ∧
      (OverrideVersion p v cascade).Branch = p.Branch ∧
      (OverrideVersion p v cascade).Image = p.Image ∧
      (OverrideVersion p v cascade).Commands = p.Commands ∧
      (OverrideVersion p v cascade).Resources = p.Resources ∧
      (OverrideVersion p v cascade).Inputs.length = p.Inputs.length ∧
      (OverrideVersion p v cascade).Inputs.map
          (fun input => (input.Step, input.Branch, input.Path, input.Bucket))
        = p.Inputs.map (fun input => (input.Step, input.Branch, input.Path, input.Bucket)) := by
    by_cases h : v = []
    · simp [OverrideVersion, h]
    · cases cascade <;> simp [OverrideVersion, h, Function.comp_def]
  have ht : (OverrideTag p t).Step = p.Step ∧ (OverrideTag p t).Version = p.Version ∧
      (OverrideTag p t).Branch = p.Branch ∧ (OverrideTag p t).Inputs = p.Inputs ∧
      (OverrideTag p t).Commands = p.Commands ∧ (OverrideTag p t).Resources = p.Resources := by
    by_cases h : t = []
    · simp [OverrideTag, h]
    · simp [OverrideTag, h]
  exact ⟨hv.1, hv.2.1, hv.2.2.1, hv.2.2.2.1, hv.2.2.2.2.1, hv.2.2.2.2.2.1, hv.2.2.2.2.2.2,
    ht.1, ht.2.1, ht.2.2.1, ht.2.2.2.1, ht.2.2.2.2.1, ht.2.2.2.2.2⟩

/-- C19: the override operations commute pairwise, for all values (empty or not)
and all cascade flags: `OverrideVersion` with `OverrideBranch`, and
`OverrideTag` with each of the two. -/
theorem Override_commute (p : PipelineDefinitionStep) (t v b : GoString) (c1 c2 : Bool) :
    OverrideBranch (OverrideVersion p v c1) b c2
      = OverrideVersion (OverrideBranch p b c2) v c1 ∧
    OverrideVersion (OverrideTag p t) v c1 = OverrideTag (OverrideVersion p v c1) t ∧
    OverrideBranch (OverrideTag p t) b c2 = OverrideTag (OverrideBranch p b c2) t := by
  refine ⟨?_, ?_, ?_⟩
  · by_cases hv : v = [] <;> by_cases hb : b = [] <;> cases c1 <;> cases c2 <;>
      simp [OverrideVersion, OverrideBranch, hv, hb, Function.comp_def]
  · by_cases hv : v = [] <;> by_cases ht : t = [] <;> cases c1 <;>
      simp [OverrideVersion, OverrideTag, hv, ht]
  · by_cases hb : b = [] <;> by_cases ht : t = [] <;> cases c2 <;>
      simp [OverrideBranch, OverrideTag, hb, ht]

/-- C20, as stated, fails on byte strings that split a character: the bytes `C3`
and `89` together are `É`, which `sanitizeName` lowers to `é` (`C3 A9`), while
each byte alone is no valid encoding, so `sanitizeName` of the two parts does
not add up to it; and counted in bytes the length is not kept (`C4 B0`, the
letter `U+0130`, becomes the one byte `i`). -/
theorem sanitizeName_split_rune_counterexample :
    sanitizeNameBytes ([0xC3] ++ [0x89]) = [0xC3, 0xA9] ∧
    sanitizeNameBytes ([0xC3] ++ [0x89])
      ≠ sanitizeNameBytes [0xC3] ++ sanitizeNameBytes [0x89] ∧
    sanitizeNameBytes [0xC4, 0xB0] = [0x69] := by
  decide

/-- C20 (amended): on text (strings that are valid UTF-8) `sanitizeName` acts
character by character: it distributes over concatenation, also as a function
of the bytes of the text; on every byte string it keeps the number of
characters (runes); and the pod name built by `NewPodDefinition` is
`sanitizeName` of `pipeline-step-branch`. -/
theorem sanitizeName_append (a b : GoString) (bytes : ByteString) (d : PipelineDefinition)
    (s : PipelineDefinitionStep) :
    sanitizeName (a ++ b) = sanitizeName a ++ sanitizeName b ∧
    sanitizeNameBytes (utf8Encode a ++ utf8Encode b)
      = sanitizeNameBytes (utf8Encode a) ++ sanitizeNameBytes (utf8Encode b) ∧
    (sanitizeName a).length = a.length ∧
    (decodeRunes 0 (sanitizeNameBytes bytes)).length = (decodeRunes 0 bytes).length ∧
    (NewPodDefinition d s).PodName
      = sanitizeName (d.Pipeline ++ "-".toList ++ s.Step ++ "-".toList ++ s.Branch) := by
  have happ : sanitizeName (a ++ b) = sanitizeName a ++ sanitizeName b := by
    simp [sanitizeName_eq_map]
  refine ⟨happ, ?_, ?_, ?_, ?_⟩
  · rw [← utf8Encode_append, sanitizeNameBytes_utf8Encode, sanitizeNameBytes_utf8Encode,
      sanitizeNameBytes_utf8Encode, happ, utf8Encode_append]
  · simp [sanitizeName_eq_map]
  · rw [sanitizeNameBytes_eq]
    have h := decodeRunes_utf8Encode (sanitizeName (decodeRunes 0 bytes)) []
    simp only [List.append_nil] at h
    have hnil : decodeRunes 0 [] = [] := rfl
    rw [h, hnil, List.append_nil]
    simp [sanitizeName_eq_map]
  · have hdash : sanitizeChar '-' = '-' := by decide
    simp only [NewPodDefinition, sanitizeName_eq_map, List.map_append, String.toList]
    simp [hdash]

/-- C13, as stated, fails on `sampleStepMixedCase` (version `V_1`; input `Prep_Data`,
version `V_0`): the commit command carries the version `V_1` as written, not
`v-1`, and the `paddle data get` command carries `Prep_Data/V_0` as written. -/
theorem compile_sanitized_tokens_counterexample :
    commitCommand (NewPodDefinition samplePipeline sampleStepMixedCase)
      = "paddle data commit $OUTPUT_PATH train-model/V_1 -b feature-x".toList ∧
    commitCommand (NewPodDefinition samplePipeline sampleStepMixedCase)
      ≠ "paddle data commit $OUTPUT_PATH ".toList ++ sanitizeName sampleStepMixedCase.Step
          ++ "/".toList ++ sanitizeName sampleStepMixedCase.Version ++ " -b ".toList
          ++ sanitizeName sampleStepMixedCase.Branch ∧
    (NewPodDefinition samplePipeline sampleStepMixedCase).Step.Inputs.map getCommand
      = ["paddle data get Prep_Data/V_0 $INPUT_PATH -b feature-y -p out".toList] := by
  decide

/-- C13 (amended): in the manifest of `NewPodDefinition(d, s).compile()` the commit
command is `paddle data commit $OUTPUT_PATH`, then `sanitizeName(s.Step)`, `/`,
the version `s.Version` as written, ` -b ` and `sanitizeName(s.Branch)`; and
the `paddle data get` command of each input ends with `/`, the input's version
as written, ` $INPUT_PATH -b `, `sanitizeName` of the input's branch, ` -p `
and the input's path; both commands are parts of the manifest text. -/
theorem compile_object_key_tokens (d : PipelineDefinition) (s : PipelineDefinitionStep) :
    commitCommand (NewPodDefinition d s)
      = "paddle data commit $OUTPUT_PATH ".toList ++ sanitizeName s.Step ++ "/".toList
          ++ s.Version ++ " -b ".toList ++ sanitizeName s.Branch ∧
    commitCommand (NewPodDefinition d s) <:+: compile (NewPodDefinition d s) ∧
    ∀ input ∈ s.Inputs,
      "paddle data get ".toList <+: getCommand input ∧
      ("/".toList ++ input.Version ++ " $INPUT_PATH -b ".toList ++ sanitizeName input.Branch
          ++ " -p ".toList ++ input.Path) <:+ getCommand input ∧
      getCommand input <:+: compile (NewPodDefinition d s) := by
  refine ⟨rfl, commitCommand_infix_compile _, ?_⟩
  intro input hin
  refine ⟨?_, ?_, getCommand_infix_compile _ input hin⟩
  · unfold getCommand
    simp only [List.append_assoc]
    exact List.prefix_append _ _
  · unfold getCommand
    simp only [List.append_assoc]
    exact ⟨"paddle data get ".toList ++ input.Step, by simp only [List.append_assoc]⟩

/-- C17: the manifest is a function of the descriptor's fields: two descriptors
that agree on the fields the template names render to the same text; so
rendering the same descriptor, or the descriptor of the same (definition,
step) pair, twice gives the same text. -/
theorem compile_deterministic (p q : PodDefinition)
    (h : templateFields p = templateFields q) : compile p = compile q := by
  simp only [templateFields, Prod.mk.injEq] at h
  obtain ⟨h1, h2, h3, h4, h5, h6, h7, h8, h9, h10, h11, h12, h13⟩ := h
  simp only [compile, renderMain, renderPaddle, commitCommand, h1, h2, h3, h4, h5, h6, h7, h8,
    h9, h10, h11, h12, flatMap_renderInput_congr _ _ h13]

/-- C17 on two descriptors of `sampleStep` that differ in the storage request,
which the template does not name: the same manifest. -/
theorem compile_deterministic_witness :
    compile (NewPodDefinition samplePipeline sampleStep)
      = compile (NewPodDefinition samplePipeline
          { sampleStep with Resources := { sampleStep.Resources with Storage := 7 } }) :=
  compile_deterministic _ _ rfl

/-- C16, as stated, fails when the field has a later `')` or an earlier
`default('`: the bucket `default('a') or default('b')` contains `default('a')`
but is normalised to `a') or default('b`, and `default('default('X')` contains
`default('X')` but is normalised to `default('X`. -/
theorem normalizeBucket_greedy_counterexample :
    ("a".toList ≠ [] ∧ '\n' ∉ "a".toList ∧
      "default('".toList ++ "a".toList ++ "')".toList
        <:+: "default('a') or default('b')".toList ∧
      (normalizeBucket
        { samplePipeline with Bucket := "default('a') or default('b')".toList }).Bucket
        = "a') or default('b".toList ∧
      (normalizeBucket
        { samplePipeline with Bucket := "default('a') or default('b')".toList }).Bucket
        ≠ "a".toList) ∧
    ("default('".toList ++ "X".toList ++ "')".toList <:+: "default('default('X')".toList ∧
      (normalizeBucket { samplePipeline with Bucket := "default('default('X')".toList }).Bucket
        = "default('X".toList) := by
  refine ⟨⟨by decide, by decide, ⟨[], " or default('b')".toList, rfl⟩, by decide, by decide⟩,
    ⟨"default('".toList, [], rfl⟩, by decide⟩

/-- C16 (amended): for a non-empty, newline-free `X`, a bucket field
`pre default('X') post` in which `pre` has no `default('` and `post` has no
`')` (so `default('X')` alone, or a template expression around it) is
normalised to `X`; a bucket field with no `default('`, one or more characters
and `')` in it is kept as it is, with the whole definition; the normalisation
changes no field other than the bucket; and `parsePipeline` applies it to what
the decoder returns. -/
theorem normalizeBucket_spec (p : PipelineDefinition) :
    (∀ X pre post : GoString, X ≠ [] → '\n' ∉ X →
      ¬ "default('".toList <:+: pre → ¬ "')".toList <:+: post →
      p.Bucket = pre ++ "default('".toList ++ X ++ "')".toList ++ post →
      (normalizeBucket p).Bucket = X) ∧
    ((¬ ∃ pre mid post : GoString, mid ≠ [] ∧
        p.Bucket = pre ++ "default('".toList ++ mid ++ "')".toList ++ post) →
      normalizeBucket p = p) ∧
    (normalizeBucket p).Pipeline = p.Pipeline ∧
    (normalizeBucket p).Namespace = p.Namespace ∧
    (normalizeBucket p).Steps = p.Steps ∧
    (normalizeBucket p).Secrets = p.Secrets ∧
    (∀ (unmarshal : GoString → Option PipelineDefinition) (data : GoString),
      unmarshal data = some p → parsePipeline unmarshal data = some (normalizeBucket p)) := by
  have hfields : (normalizeBucket p).Pipeline = p.Pipeline ∧
      (normalizeBucket p).Namespace = p.Namespace ∧ (normalizeBucket p).Steps = p.Steps ∧
      (normalizeBucket p).Secrets = p.Secrets := by
    unfold normalizeBucket
    simp only []
    split <;> exact ⟨rfl, rfl, rfl, rfl⟩
  refine ⟨?_, ?_, hfields.1, hfields.2.1, hfields.2.2.1, hfields.2.2.2, ?_⟩
  · intro X pre post hX hnl hpre hpost hb
    have hfind : FindStringSubmatch p.Bucket
        = ["default('".toList ++ X ++ "')".toList, X] := by
      rw [hb]
      have e : pre ++ "default('".toList ++ X ++ "')".toList ++ post
          = pre ++ ("default('".toList ++ (X ++ "')".toList ++ post)) := by
        simp only [List.append_assoc]
      rw [e, FindStringSubmatch_skip pre _ hpre]
      exact FindStringSubmatch_default _ X (matchGroup_of_closed X post hX hnl hpost)
    unfold normalizeBucket
    simp only [hfind]
    simp [hX]
  · intro hnone
    have hfind : FindStringSubmatch p.Bucket = [] := by
      by_contra hne
      obtain ⟨pre, x, post, hx, hs, _⟩ := FindStringSubmatch_sound p.Bucket hne
      exact hnone ⟨pre, x, post, hx, hs⟩
    unfold normalizeBucket
    simp [hfind]
  · intro unmarshal data hu
    simp [parsePipeline, hu]

/-- C16 (amended) on the bucket field `default('my-bucket')` inside a template
expression: the bucket becomes `my-bucket`. -/
theorem normalizeBucket_spec_witness :
    (normalizeBucket
      { samplePipeline with
        Bucket := "\x7b\x7b bucket | default('my-bucket') \x7d\x7d".toList }).Bucket
      = "my-bucket".toList :=
  (normalizeBucket_spec
      { samplePipeline with
        Bucket := "\x7b\x7b bucket | default('my-bucket') \x7d\x7d".toList }).1
    "my-bucket".toList "\x7b\x7b bucket | ".toList " \x7d\x7d".toList
    (by decide) (by decide) (by decide) (by decide) rfl

/-- C14, as stated, fails for a failing step command: with one command that
fails, on a volume holding `first-step.txt`, the script ends with
`main-failed.txt` written and without `main.txt`. -/
theorem mainScript_failed_counterexample :
    (exec 1 (mainScript [false]) [.firstStep]).map (fun o => o.files)
      = some [.firstStep, .mainFailed] ∧
    ¬ (∀ o, exec 1 (mainScript [false]) [.firstStep] = some o →
        (Sentinel.mainPassed ∈ o.files ∨ Sentinel.mainFailed ∈ o.files) →
        Sentinel.mainDone ∈ o.files) := by
  refine ⟨by decide, ?_⟩
  intro h
  have := h { files := [.firstStep, .mainFailed], status := 0, control := .normal }
    (by decide) (by decide)
  exact absurd this (by decide)

/-- C14 (amended): on a volume where `first-step.txt` is present, the script of
the main container ends, for every list of step commands and every outcome of
each: when every command succeeds it writes `main-passed.txt` and then
`main.txt`; when a command fails it writes `main-failed.txt` and neither
`main-passed.txt` nor `main.txt`; so `main-passed.txt` and `main-failed.txt`
are never both written. -/
theorem mainScript_outcome (outcomes : List Bool) (files : List Sentinel) (fuel : Nat)
    (hfirst : Sentinel.firstStep ∈ files) :
    ∃ o, exec (fuel + 1) (mainScript outcomes) files = some o ∧ o.control = .normal ∧
      (outcomes.all id = true →
        o.files = touchFile .mainDone (touchFile .mainPassed files) ∧
        Sentinel.mainPassed ∈ o.files ∧ Sentinel.mainDone ∈ o.files ∧
        (Sentinel.mainFailed ∈ o.files → Sentinel.mainFailed ∈ files)) ∧
      (outcomes.all id = false →
        o.files = touchFile .mainFailed files ∧
        Sentinel.mainFailed ∈ o.files ∧
        (Sentinel.mainDone ∈ o.files → Sentinel.mainDone ∈ files) ∧
        (Sentinel.mainPassed ∈ o.files → Sentinel.mainPassed ∈ files)) ∧
      ((Sentinel.mainPassed ∉ files ∧ Sentinel.mainFailed ∉ files) →
        ¬ (Sentinel.mainPassed ∈ o.files ∧ Sentinel.mainFailed ∈ o.files)) := by
  have hmem : ∀ (f g : Sentinel) (fs : List Sentinel),
      f ∈ touchFile g fs ↔ f = g ∨ f ∈ fs := by
    intro f g fs
    unfold touchFile
    by_cases hg : g ∈ fs
    · rw [if_pos hg]
      constructor
      · exact fun h => Or.inr h
      · rintro (rfl | h)
        · exact hg
        · exact h
    · rw [if_neg hg]
      simp [or_comm]
  have hexec := exec_mainScript fuel outcomes files hfirst
  by_cases hall : outcomes.all id = true
  · rw [if_pos hall] at hexec
    refine ⟨_, hexec, rfl, ?_, ?_, ?_⟩
    · intro _
      refine ⟨rfl, ?_, ?_, ?_⟩
      · simp [hmem]
      · simp [hmem]
      · intro h
        simpa [hmem] using h
    · intro hfalse
      rw [hall] at hfalse
      exact absurd hfalse (by decide)
    · rintro ⟨hp, hf⟩ ⟨_, h⟩
      have : Sentinel.mainFailed ∈ files := by simpa [hmem] using h
      exact hf this
  · rw [if_neg hall] at hexec
    refine ⟨_, hexec, rfl, ?_, ?_, ?_⟩
    · intro htrue
      exact absurd htrue hall
    · intro _
      refine ⟨rfl, ?_, ?_, ?_⟩
      · simp [hmem]
      · intro h
        simpa [hmem] using h
      · intro h
        simpa [hmem] using h
    · rintro ⟨hp, hf⟩ ⟨h, _⟩
      have : Sentinel.mainPassed ∈ files := by simpa [hmem] using h
      exact hp this

/-- C14 (amended) for two succeeding commands on the volume holding only
`first-step.txt`: the script ends with `main-passed.txt` and `main.txt`
written. -/
theorem mainScript_outcome_witness :
    Sentinel.firstStep ∈ [Sentinel.firstStep] ∧
    ∃ o, exec 1 (mainScript [true, true]) [.firstStep] = some o ∧
      Sentinel.mainPassed ∈ o.files ∧ Sentinel.mainDone ∈ o.files :=
  have h := mainScript_outcome [true, true] [.firstStep] 0 (by decide)
  ⟨by decide, h.choose, h.choose_spec.1,
    (h.choose_spec.2.2.1 (by decide)).2.1, (h.choose_spec.2.2.1 (by decide)).2.2.1⟩

/-- C15: in every interleaved execution of the two scripts from the empty volume,
whatever the outcomes of the external commands, main enters its command list,
and starts each step command, only after paddle has written `first-step.txt`;
paddle starts the commit only after main has written `main-passed.txt`; and
an execution in which paddle finds `main-failed.txt` has no commit. -/
theorem protocol_ordering (r : CommandOutcomes) (schedule : List Container) :
    Precedes (.paddleWrites .firstStep) .mainStartsRun (runSchedule r schedule).log ∧
    (∀ i, Precedes (.paddleWrites .firstStep) (.mainRuns i) (runSchedule r schedule).log) ∧
    Precedes (.mainWrites .mainPassed) .paddleStartsCommit (runSchedule r schedule).log ∧
    (Event.paddleSeesFailed ∈ (runSchedule r schedule).log →
      Event.paddleStartsCommit ∉ (runSchedule r schedule).log) := by
  have h := PodInvariant.runSchedule r schedule
  refine ⟨h.startsRun, h.runs, h.commit, ?_⟩
  intro hfailed hcommit
  have h1 := h.sawFailed hfailed
  have h2 := h.committed hcommit
  rw [h1] at h2
  exact absurd h2 (by simp)

/-- C15 on `sampleSchedule`: the execution has a step command run and a commit,
each after the file it waits for. -/
theorem protocol_ordering_witness :
    Event.mainRuns 0 ∈ (runSchedule sampleOutcomes sampleSchedule).log ∧
    Event.paddleStartsCommit ∈ (runSchedule sampleOutcomes sampleSchedule).log ∧
    Precedes (.paddleWrites .firstStep) (.mainRuns 0)
      (runSchedule sampleOutcomes sampleSchedule).log ∧
    Precedes (.mainWrites .mainPassed) .paddleStartsCommit
      (runSchedule sampleOutcomes sampleSchedule).log :=
  have h := protocol_ordering sampleOutcomes sampleSchedule
  ⟨by decide, by decide, h.2.1 0, h.2.2.1⟩

end Paddle
